import Mathlib

/-!
Verification of the Fresh remote agent
(`src/crates/fresh-editor/src/services/remote/agent.py`).

The agent is a line-oriented JSON request/response process.  This file gives a
shallow embedding of the parts of `agent.py` that the specification's claims
are about: the chunked `read` loop, the atomic `write`/`patch` temp-file
discipline, the `patch` recipe interpreter, the dispatch boundary
(`handle_request`), the `exec` streaming loop, `cancel`, `stat`'s symlink
flag, `sudo_write`'s helper invocations and `validate_path`.

Conventions of the embedding:
* bytes are `List Nat` (the base64 wire encoding is a bijection on bytes and
  is not modelled);
* OS calls are given by explicit oracle arguments (file contents, failure
  injection points); every failure an oracle can inject corresponds to a
  Python exception the source can raise at that program point;
* `send` (agent.py lines 24-28) is assumed to succeed: the spec assumes a
  reliable transport, so a message handed to `send` counts as emitted;
* loops are written with an explicit fuel argument large enough for every
  execution (proved where needed), keeping all definitions kernel-reducible.
-/

namespace FreshAgent

/-- A byte string (each entry a byte value). -/
abbrev Bytes := List Nat

/-- agent.py line 13: `CHUNK = 65536`. -/
def CHUNK : Nat := 65536

/-! ## JSON values and wire messages -/

/-- A decoded JSON value, as produced by `json.loads` (agent.py line 462). -/
inductive JVal where
  | nullJ
  | boolJ (b : Bool)
  | numJ (n : Int)
  | strJ (s : String)
  | arrJ (xs : List JVal)
  | objJ (kvs : List (String × JVal))

/-- Result payloads (`r={...}`) the handlers emit. -/
inductive RVal where
  | unitR
  | size (n : Nat)
  | code (c : Int)
  | boolR (b : Bool)
  | entriesR (n : Nat)
  | pathR (s : String)
  | statR (sz : Nat) (dir file link : Bool)
  | infoR

/-- One message on the agent→peer stream (agent.py lines 24-28): a `d`
(progress), `r` (terminal result) or `e` (terminal error) line for `id`. -/
inductive Msg where
  | data (id : JVal) (b : Bytes)
  | dataOut (id : JVal) (b : Bytes)
  | dataErr (id : JVal) (b : Bytes)
  | result (id : JVal) (r : RVal)
  | error (id : JVal) (e : String)

/-! ## `cmd_read` (agent.py lines 54-73)

`cmd_read` seeks to `off`, then repeatedly reads
`min(CHUNK, length - total) if length else CHUNK` bytes, emitting each
non-empty chunk, until an empty read or (`if length and total >= length`)
the requested length is reached.  Note both `if length` tests use Python
truthiness: `length = 0` behaves exactly like an absent `length`. -/

/-- Python truthiness of the optional `len` parameter (`if length`). -/
def truthy : Option Nat → Bool
  | none => false
  | some n => n != 0

/-- Line 65: `to_read = min(CHUNK, length - total) if length else CHUNK`. -/
def toRead (length : Option Nat) (total : Nat) : Nat :=
  if truthy length then min CHUNK (length.getD 0 - total) else CHUNK

/-- The read loop (lines 63-72) over a file modelled as its byte list.
`pos` is the file cursor, `total` the bytes emitted so far.  Returns the
emitted chunks and the final `total` (reported as `r={"size": total}`).
The fuel only needs to exceed the number of iterations; `cmd_read` supplies
`file.length + 1`, which suffices because every non-final iteration consumes
at least one byte. -/
def readLoopF : Nat → Bytes → Nat → Option Nat → Nat → List Bytes × Nat
  | 0, _, _, _, total => ([], total)
  | fuel + 1, file, pos, length, total =>
    let chunk := (file.drop pos).take (toRead length total)
    if chunk = [] then ([], total)
    else
      let total' := total + chunk.length
      if truthy length && decide (length.getD 0 ≤ total') then ([chunk], total')
      else
        let r := readLoopF fuel file (pos + chunk.length) length total'
        (chunk :: r.1, r.2)

/-- Handler `cmd_read` as a pure function: the chunks emitted as `data` messages and
the size in the terminal `result`.  `if off: f.seek(off)` (lines 61-62) is
the same as starting the cursor at `off` (for `off = 0` no seek happens and
the cursor is 0 anyway). -/
def cmd_read (file : Bytes) (off : Nat) (length : Option Nat) : List Bytes × Nat :=
  readLoopF (file.length + 1) file off length 0

/-! ## `cmd_patch` recipe interpreter (agent.py lines 292-299)

Each op is a JSON object; the loop tests `if "copy" in op`, then
`elif "insert" in op`, and otherwise does nothing. -/

/-- One patch operation: the optional `"copy": {"off","len"}` and
`"insert": {"data"}` keys of the op object (`insert` holds decoded bytes). -/
structure PatchOp where
  copy : Option (Nat × Nat)
  insert : Option Bytes
  deriving DecidableEq

/-- The bytes one op writes to the temp file: `orig.seek(off); orig.read(len)`
for a copy (reading past EOF yields the empty string, hence drop/take), the
literal bytes for an insert, nothing when neither key is present. -/
def applyOp (src : Bytes) (op : PatchOp) : Bytes :=
  match op.copy with
  | some (off, len) => (src.drop off).take len
  | none =>
    match op.insert with
    | some d => d
    | none => []

/-- The full output the op loop writes to the temp file. -/
def applyOps (src : Bytes) (ops : List PatchOp) : Bytes :=
  (ops.map (applyOp src)).flatten

/-- A recipe of consecutive copy ops with the given lengths, starting at
offset `off` (the shape used by the round-trip property). -/
def mkCopies : Nat → List Nat → List PatchOp
  | _, [] => []
  | off, l :: ls => { copy := some (off, l), insert := none } :: mkCopies (off + l) ls

/-! ## Python exceptions and the dispatcher's error translation -/

/-- The exceptions the modelled code can raise.  `valueError` is what
`validate_path` raises on an empty path, `keyError k` is `p["k"]` on a
missing key, `runtimeError` is `cmd_sudo_write`'s tee failure,
`calledProcessError` comes from `subprocess.run(check=True)`. -/
inductive PyExc where
  | permissionError (s : String)
  | fileNotFoundError (s : String)
  | isADirectoryError (s : String)
  | notADirectoryError (s : String)
  | osError (s : String)
  | valueError (s : String)
  | keyError (k : String)
  | runtimeError (s : String)
  | binasciiError (s : String)
  | calledProcessError (s : String)
  deriving DecidableEq

/-- The error string `handle_request`'s except-chain produces for each
exception (agent.py lines 477-488).  `PermissionError` .. `OSError` get a
distinguishing text; everything else falls to `except Exception` and is
reported as `str(e)` (for `KeyError` Python's `str` is the repr of the key,
hence the quotes). -/
def excText : PyExc → String
  | .permissionError s => "permission denied: " ++ s
  | .fileNotFoundError s => "not found: " ++ s
  | .isADirectoryError s => "is a directory: " ++ s
  | .notADirectoryError s => "not a directory: " ++ s
  | .osError s => "os error: " ++ s
  | .valueError s => s
  | .keyError k => "'" ++ k ++ "'"
  | .runtimeError s => s
  | .binasciiError s => s
  | .calledProcessError s => s

/-! ## Atomic `cmd_write` / `cmd_patch` (agent.py lines 76-105 and 272-315)

Both handlers share the same discipline: write the complete new content to a
temp sibling `path + ".fresh-<pid>"`, fsync it, copy the destination's mode
bits onto it if the destination pre-existed, `os.replace` it onto the
destination (atomic), and in a `finally` block unlink the temp file if it
still exists.  We model the destination and temp files of one such call;
`os.replace` is the only step that changes the destination, and it is
atomic.  An oracle (`FailSpec`) says which OS step, if any, raises. -/

/-- The two files a `write`/`patch` call touches: the destination and its
temp sibling (`none` = the file does not exist). -/
structure WFS where
  dst : Option Bytes
  tmp : Option Bytes
  deriving DecidableEq

/-- Failure injection for one `write`/`patch` call.  `failPre`: an exception
before any byte reaches the temp file (the `os.stat` of the destination on
line 87/288, or opening the source/temp file); `failMid k e`: an exception
once `k` bytes of the new content are in the temp file (write/flush/fsync,
or reading the patch source mid-recipe); `failChmod`: `os.chmod(tmp, mode)`
raises (only reached when the destination pre-existed); `failReplace`:
`os.replace` raises; `failUnlink`: the `finally` block's `os.unlink(tmp)`
raises `OSError` (swallowed by the source's `except OSError: pass`, lines
100-103 / 310-313, leaving the temp file behind).  `none`/`false`
everywhere is the failure-free run. -/
structure FailSpec where
  failPre : Option PyExc
  failMid : Option (Nat × PyExc)
  failChmod : Option PyExc
  failReplace : Option PyExc
  failUnlink : Bool
  deriving DecidableEq

/-- The failure-free `FailSpec`. -/
def noFail : FailSpec := ⟨none, none, none, none, false⟩

/-- The `try` body shared by `cmd_write` (lines 84-97) and `cmd_patch`
(lines 292-307), abstracted over the new content `out`: stat the destination
for its mode, stream `out` into the temp file, fsync, chmod the temp file if
the destination pre-existed, then atomically `os.replace` the temp file onto
the destination.  Returns the filesystem after the body and the exception it
raised, if any. -/
def writeBody (fs : WFS) (out : Bytes) (f : FailSpec) : WFS × Option PyExc :=
  match f.failPre with
  | some e => (fs, some e)
  | none =>
    match f.failMid with
    | some (k, e) => ({ fs with tmp := some (out.take k) }, some e)
    | none =>
      let fs1 : WFS := { fs with tmp := some out }
      match f.failChmod with
      | some e => if fs.dst.isSome then (fs1, some e) else
          match f.failReplace with
          | some e' => (fs1, some e')
          | none => ({ dst := some out, tmp := none }, none)
      | none =>
        match f.failReplace with
        | some e' => (fs1, some e')
        | none => ({ dst := some out, tmp := none }, none)

/-- The `finally` block (lines 98-103 / 308-313): if the temp file still
exists, try to unlink it; an `OSError` from the unlink itself
(`failUnlink`) is swallowed by `except OSError: pass` and leaves the temp
file in place. -/
def writeCleanup (fs : WFS) (failUnlink : Bool) : WFS :=
  match fs.tmp with
  | none => fs
  | some _ => if failUnlink then fs else { fs with tmp := none }

/-- Handler `cmd_write`'s effect on the two files: run the body, always run the
`finally` cleanup, then either re-raise the body's exception (reported by
the dispatcher) or send `r={"size": len(data)}` (line 105). -/
def cmd_write_fs (fs : WFS) (data : Bytes) (f : FailSpec) : WFS × Except PyExc Nat :=
  let br := writeBody fs data f
  let fs2 := writeCleanup br.1 f.failUnlink
  match br.2 with
  | some e => (fs2, .error e)
  | none => (fs2, .ok data.length)

/-- Handler `cmd_patch`'s effect on destination and temp file: identical discipline,
with the new content computed by the op loop from the source file's bytes
(`srcContent`; for the default in-place `dst = src` this is the destination's
own old content), and a terminal `r={}` (line 315). -/
def cmd_patch_fs (fs : WFS) (srcContent : Bytes) (ops : List PatchOp) (f : FailSpec) :
    WFS × Except PyExc Unit :=
  let br := writeBody fs (applyOps srcContent ops) f
  let fs2 := writeCleanup br.1 f.failUnlink
  match br.2 with
  | some e => (fs2, .error e)
  | none => (fs2, .ok ())

/-! ## `validate_path` (agent.py lines 41-48)

A path is modelled as its component list plus an absolute flag (the POSIX
string `"a/b"` is `⟨false, ["a","b"]⟩`, `"/a/b"` is `⟨true, ["a","b"]⟩`, the
empty string is `⟨false, []⟩`).  `os.path.normpath`'s component walk is
`npStep`; `os.path.abspath p = normpath(join(cwd, p))`; `os.path.realpath`
is modelled for a symlink-free filesystem, where it performs exactly the
same absolute-path collapse as `normpath` (`.`/`..`/empty components
collapsed, `..` at the root absorbed).  `os.path.expanduser` expands a
literal leading `~` component to the home directory (a `~user` component
with an unknown user is returned unchanged, as in Python). -/

/-- One path component. -/
abbrev Seg := String

/-- posixpath.normpath's per-component action on the accumulated component
list: skip `""` and `"."`; for `".."` append it when the path is relative
and empty so far or already ends in `".."`, otherwise pop a component
(`".."` against an absolute root disappears); append anything else. -/
def npStep (isAbs : Bool) (acc : List Seg) (c : Seg) : List Seg :=
  if c = "" ∨ c = "." then acc
  else if c = ".." then
    if (isAbs = false ∧ acc = []) ∨ acc.getLast? = some ".." then acc ++ [".."]
    else if acc ≠ [] then acc.dropLast
    else acc
  else acc ++ [c]

/-- Component normalization (`os.path.normpath` on the component list). -/
def normpathComps (isAbs : Bool) (cs : List Seg) : List Seg :=
  cs.foldl (npStep isAbs) []

/-- A path: absolute flag plus components. -/
structure PyPath where
  absolute : Bool
  comps : List Seg
  deriving DecidableEq

/-- Does a component begin with the `~` character (the forms
`os.path.expanduser` rewrites)? -/
def tildeHead (c : Seg) : Bool := c.data.head? = some '~'

/-- Does a component list begin with a `~...` component? -/
def headTilde (l : List Seg) : Bool :=
  match l.head? with
  | some c => tildeHead c
  | none => false

/-- Model of `os.path.expanduser` (line 45): a relative path whose first
component begins with `~` is expanded — the bare `~` to the agent's home
directory, a `~user` component to that user's home directory per the host's
user database `users` (an unknown user leaves the path unchanged, as in
Python).  An absolute path starts with `/`, so it is never expanded. -/
def expanduser (home : List Seg) (users : Seg → Option (List Seg)) (p : PyPath) : PyPath :=
  if p.absolute = false then
    match p.comps.head? with
    | some c =>
      if c = "~" then ⟨true, home ++ p.comps.tail⟩
      else if tildeHead c then
        match users c with
        | some uhome => ⟨true, uhome ++ p.comps.tail⟩
        | none => p
      else p
    | none => p
  else p

/-- An empty user database (every `~user` is unknown and stays unchanged). -/
def noUsers : Seg → Option (List Seg) := fun _ => none

/-- Model of `validate_path` (lines 41-48) over a symlink-free filesystem: reject the
empty string (`if not p`), expand a leading `~`/`~user`, make relative paths
absolute against the agent's working directory (`os.path.abspath`, which
normalizes), then canonicalize (`os.path.realpath`).  `cwd`, `home` and
`users` are the component lists of the agent's working directory and home
directory and the host's user database. -/
def validate_path (cwd home : List Seg) (users : Seg → Option (List Seg)) (p : PyPath) :
    Except String (List Seg) :=
  if p.absolute = false ∧ p.comps = [] then .error "empty path"
  else
    .ok (normpathComps true
      (if (expanduser home users p).absolute then (expanduser home users p).comps
       else normpathComps true (cwd ++ (expanduser home users p).comps)))

/-- The textual "simplified equivalent" of a relative path: `os.path.normpath`
of its components (Python's normpath yields `"."` for an empty result). -/
def simplifyRel (cs : List Seg) : List Seg :=
  if normpathComps false cs = [] then ["."] else normpathComps false cs

/-- A path component free of the special forms normpath collapses. -/
def goodSeg (c : Seg) : Prop := c ≠ "" ∧ c ≠ "." ∧ c ≠ ".."

/-- Every component good. -/
def goodL (l : List Seg) : Prop := ∀ c ∈ l, goodSeg c

instance (c : Seg) : Decidable (goodSeg c) := by
  unfold goodSeg
  infer_instance

instance (l : List Seg) : Decidable (goodL l) := by
  unfold goodL
  infer_instance

/-- Accumulator step for the relative normal form of a component list:
a pair (number of leading `..` components, remaining plain components). -/
def relStep : Nat × List Seg → Seg → Nat × List Seg
  | (u, segs), c =>
    if c = "" ∨ c = "." then (u, segs)
    else if c = ".." then
      match segs with
      | [] => (u + 1, [])
      | _ :: _ => (u, segs.dropLast)
    else (u, segs ++ [c])

/-- The relative normal form of a component list. -/
def relNF (cs : List Seg) : Nat × List Seg := cs.foldl relStep (0, [])

/-- Apply a relative normal form to an absolute base: go up `p.1` levels
(clipped at the root), then descend along `p.2`. -/
def applyNF (s : List Seg) (p : Nat × List Seg) : List Seg :=
  s.take (s.length - p.1) ++ p.2

/-! ## `cmd_stat` (agent.py lines 144-164)

For the symlink-flag claim we model a filesystem as a finite map from path
names to nodes, with symlinks as explicit nodes.  `validate_path`'s
`os.path.realpath` resolves symlink chains, so the handler's `os.lstat` and
`os.stat` run on the *resolved* name. -/

/-- A filesystem node: a regular file (with size), a directory, or a
symlink to another name. -/
inductive FNode where
  | file (size : Nat)
  | dir
  | link (target : String)
  deriving DecidableEq

/-- A tiny filesystem: name → node. -/
abbrev FSMap := List (String × FNode)

/-- Follow a symlink chain for at most `fuel` steps (`os.path.realpath`'s
symlink resolution; names are atomic in this model). -/
def chase (fs : FSMap) : Nat → String → String
  | 0, p => p
  | fuel + 1, p =>
    match fs.lookup p with
    | some (.link t) => chase fs fuel t
    | _ => p

/-- Model of `os.path.realpath` on the tiny filesystem: enough fuel to traverse any
chain that does not cycle. -/
def realpathFS (fs : FSMap) (p : String) : String := chase fs (fs.length + 1) p

/-- Test `stat.S_ISLNK(...st_mode)` of a looked-up node. -/
def isLinkNode : Option FNode → Bool
  | some (.link _) => true
  | _ => false

/-- The `st_size` of a node (directories and links get 0 in this model). -/
def nodeSize : FNode → Nat
  | .file n => n
  | _ => 0

/-- The `r={...}` record `cmd_stat` sends (the fields the claims mention). -/
structure StatResult where
  size : Nat
  dir : Bool
  file : Bool
  link : Bool
  deriving DecidableEq

/-- Handler `cmd_stat` (lines 144-164): canonicalize the path (`validate_path`, so
symlinks are resolved), `os.stat` it following links iff `follow`
(`p.get("link", True)`), and compute
`is_link = stat.S_ISLNK(os.lstat(path).st_mode) if follow else False`
(line 150) — the lstat runs on the already-resolved `path`. -/
def cmd_stat_fs (fs : FSMap) (rawPath : String) (follow : Bool) : Except PyExc StatResult :=
  if rawPath = "" then .error (.valueError "empty path")
  else
    let path := realpathFS fs rawPath
    let stName := if follow then realpathFS fs path else path
    match fs.lookup stName with
    | none => .error (.fileNotFoundError rawPath)
    | some st =>
      let is_link := if follow then isLinkNode (fs.lookup path) else false
      .ok { size := nodeSize st
            dir := st = .dir
            file := match st with | .file _ => true | _ => false
            link := is_link }

/-! ## `cmd_cancel` (agent.py lines 420-430) and the supervisor state

The shared state is the tracked-process dict `procs` (its key set suffices
here) and the cancellation-marker set `cancelled` (lines 16-19). -/

/-- The Process Supervisor's shared state: ids with a tracked process and
ids marked for cancellation. -/
structure AgentState where
  procs : Finset Int
  cancelled : Finset Int
  deriving DecidableEq

/-- Handler `cmd_cancel` (lines 420-430): unconditionally `cancelled.add(target_id)`,
then under the lock look the target up in `procs` and, if present, send it a
terminate signal; always reply `r={}`.  Returns the new state, the id whose
process got signalled (if any), and the reply. -/
def cmd_cancel (id : JVal) (s : AgentState) (target : Int) : AgentState × Option Int × Msg :=
  let s1 : AgentState := { s with cancelled := insert target s.cancelled }
  let sig := if target ∈ s1.procs then some target else none
  (s1, sig, Msg.result id .unitR)

/-! ## `cmd_sudo_write` (agent.py lines 108-141)

The handler shells out to elevated helpers: `sudo tee` for the write, then
optionally `sudo chmod`, then — only when *both* `uid` and `gid` were
supplied — `sudo chown`.  We record the helper invocations; the destination
file's owner/group can only change through a `chown` invocation. -/

/-- One elevated-helper invocation. -/
inductive HelperCall where
  | tee (path : String) (data : Bytes)
  | chmodH (mode : Nat) (path : String)
  | chownH (uid gid : Int) (path : String)
  deriving DecidableEq

/-- Outcomes of the helper invocations: `sudo tee`'s exit code and stderr,
and whether the `chmod`/`chown` helpers succeed (`subprocess.run` with
`check=True` raises `CalledProcessError` otherwise). -/
structure SudoOracle where
  teeExit : Int
  teeStderr : String
  chmodOk : Bool
  chownOk : Bool

/-- Handler `cmd_sudo_write` (lines 108-141): validate the path, run `sudo tee`
(raising `RuntimeError` with the helper's stderr on a non-zero exit), run
`sudo chmod` iff `mode` was supplied, run `sudo chown uid:gid` iff *both*
`uid` and `gid` were supplied, then send `r={"size": len(data)}`.  Returns
the helper invocations actually made and the outcome. -/
def cmd_sudo_write (path : String) (data : Bytes) (mode : Option Nat)
    (uid gid : Option Int) (o : SudoOracle) : List HelperCall × Except PyExc Nat :=
  if path = "" then ([], .error (.valueError "empty path"))
  else
    let teeCalls : List HelperCall := [.tee path data]
    if o.teeExit ≠ 0 then
      (teeCalls, .error (.runtimeError ("sudo tee failed: " ++ o.teeStderr)))
    else
      let cmCalls := teeCalls ++ (match mode with
        | some m => [HelperCall.chmodH m path]
        | none => [])
      if mode.isSome ∧ o.chmodOk = false then (cmCalls, .error (.calledProcessError "chmod"))
      else
        let coCalls := cmCalls ++ (match uid, gid with
          | some u, some g => [HelperCall.chownH u g path]
          | _, _ => [])
        if (uid.isSome ∧ gid.isSome) ∧ o.chownOk = false then
          (coCalls, .error (.calledProcessError "chown"))
        else (coCalls, .ok data.length)

/-! ## `handle_request` and `main` (agent.py lines 459-501)

`handle_request` parses one line with `json.loads`; a `JSONDecodeError` is
reported as an error against id 0.  It then calls `req.get(...)` — which is
only defined when the decoded value is a JSON *object*; on any other JSON
value (`5`, `"x"`, `[1]`, …) `req.get` raises `AttributeError`, which
nothing catches: it propagates out of `handle_request` and out of `main`'s
plain `for line in sys.stdin` loop (lines 491-501), terminating the agent.
Known methods are dispatched inside a try whose except-chain (lines
477-488) converts every `Exception` into an error message for the request's
id. -/

/-- The outcome of `json.loads` on one input line. -/
inductive DecodeResult where
  | malformed (errText : String)
  | value (v : JVal)

/-- What a dispatched handler call does: return after emitting `msgs`, or
raise `e` after emitting `msgs` (handlers emit their own messages through
`send`). -/
inductive HandlerOutcome where
  | ret (msgs : List Msg)
  | raised (msgs : List Msg) (e : PyExc)

/-- The behaviour of the handler table, abstracted: method name, request id
and params determine what the invoked handler does. -/
abbrev HandlerBehavior := String → JVal → JVal → HandlerOutcome

/-- A condition that terminates the agent process: the uncaught
`AttributeError` from `req.get` on a non-object JSON value. -/
inductive Crash where
  | attributeError
  deriving DecidableEq

/-- The method catalogue (agent.py lines 435-456). -/
def METHODS : List String :=
  ["read", "write", "sudo_write", "stat", "ls", "rm", "rmdir", "mkdir", "mv",
   "cp", "realpath", "chmod", "append", "truncate", "patch", "exists", "info",
   "exec", "kill", "cancel"]

/-- Python `str(...)` of the value found under `"m"` (used in the
`unknown method: ...` message; an absent key prints as `None`). -/
def pyStr : Option JVal → String
  | none => "None"
  | some .nullJ => "None"
  | some (.boolJ true) => "True"
  | some (.boolJ false) => "False"
  | some (.numJ n) => toString n
  | some (.strJ s) => s
  | some (.arrJ _) => "[...]"
  | some (.objJ _) => "{...}"

/-- Lookup `req.get(k)` on an object's key/value list. -/
def jGet (kvs : List (String × JVal)) (k : String) : Option JVal := kvs.lookup k

/-- Model of `handle_request(line)` (lines 459-488), given the decode outcome of the
line and the behaviour of the handlers.  Returns the messages emitted for
this line, or the crash that escapes the function. -/
def handle_request (hb : HandlerBehavior) (dr : DecodeResult) : Except Crash (List Msg) :=
  match dr with
  | .malformed t => .ok [Msg.error (.numJ 0) ("parse error: " ++ t)]
  | .value v =>
    match v with
    | .objJ kvs =>
      let id := (jGet kvs "id").getD (.numJ 0)
      let m := jGet kvs "m"
      let params := (jGet kvs "p").getD (.objJ [])
      match m with
      | some (.strJ name) =>
        if name ∈ METHODS then
          match hb name id params with
          | .ret msgs => .ok msgs
          | .raised msgs e => .ok (msgs ++ [Msg.error id (excText e)])
        else .ok [Msg.error id ("unknown method: " ++ pyStr m)]
      | _ => .ok [Msg.error id ("unknown method: " ++ pyStr m)]
    | _ => .error .attributeError

/-! ## The `exec` streaming loop (agent.py lines 338-400)

`stream_output` runs in its own thread.  Each poll iteration either observes
the cancellation marker (terminate/wait/kill, emit `error("cancelled")`,
stop) or forwards whatever `select` reported readable as `d={"out"/"err"}`
messages.  Once `poll()` reports exit, `communicate` drains both streams,
the remainders are emitted and `r={"code": ...}` ends the request; any
exception during streaming is reported as an error.  A schedule of
iterations plus a final event determines one run. -/

/-- One iteration of the streaming loop while the child is still running:
whether the request's id is in `cancelled` at that point, and the chunks
`select`+`read` produced (tag `true` = stdout, `false` = stderr; empty
chunks are not sent). -/
structure StreamIter where
  cancelledNow : Bool
  reads : List (Bool × Bytes)

/-- How the loop ends once `poll()` reports exit: a normal drain with the
remaining stdout/stderr bytes and the exit code, or an exception (e.g.
`communicate`'s `TimeoutExpired`) reported as `str(e)`. -/
inductive StreamEnd where
  | exited (out err : Bytes) (code : Int)
  | raisedE (e : String)

/-- The messages `stream_output` emits for its request id over a given
schedule (lines 361-398). -/
def stream_output (id : JVal) : List StreamIter → StreamEnd → List Msg
  | [], fin =>
    match fin with
    | .exited out err code =>
      (if out ≠ [] then [Msg.dataOut id out] else []) ++
        (if err ≠ [] then [Msg.dataErr id err] else []) ++
        [Msg.result id (.code code)]
    | .raisedE e => [Msg.error id e]
  | it :: rest, fin =>
    if it.cancelledNow then [Msg.error id "cancelled"]
    else
      (it.reads.filterMap fun r =>
        if r.2 = [] then none
        else some (if r.1 then Msg.dataOut id r.2 else Msg.dataErr id r.2)) ++
        stream_output id rest fin

/-- How `subprocess.Popen` fares in `cmd_exec` (lines 344-356):
`FileNotFoundError` and `PermissionError` are handled inline (an error
message, no raise); any other exception propagates to the dispatcher. -/
inductive SpawnResult where
  | ok (iters : List StreamIter) (fin : StreamEnd)
  | fnf
  | permDenied
  | raisedS (e : PyExc)

/-! ## Per-handler dispatch models

For the messages-per-request invariant each handler is modelled as the pair
(messages it emitted through `send`, exception it raised if it did not
return).  Required params are `Option`s (a missing key is `p["..."]`'s
`KeyError`); an empty path is `validate_path`'s `ValueError`; other OS
failures are oracle inputs.  `finishTrace` is the dispatch boundary: a
raised exception becomes one error message for the request's id
(agent.py lines 475-488). -/

/-- A handler invocation's emitted messages and, if it raised, the
exception. -/
abbrev HOut := List Msg × Option PyExc

/-- Append the dispatcher's error translation to a handler outcome. -/
def finishTrace (id : JVal) (out : HOut) : List Msg :=
  match out.2 with
  | none => out.1
  | some e => out.1 ++ [Msg.error id (excText e)]

/-- Handler `cmd_read` dispatched (lines 54-73): `KeyError`/`ValueError`/open
failure before anything is emitted; otherwise the chunk loop runs, possibly
hitting an OS read error after `k` emitted chunks, and on completion the
terminal `r={"size": total}`. -/
def run_read (id : JVal) (path : Option String) (off : Nat) (len : Option Nat)
    (file : Except PyExc Bytes) (failAfter : Option Nat) : HOut :=
  match path with
  | none => ([], some (.keyError "path"))
  | some s =>
    if s = "" then ([], some (.valueError "empty path"))
    else
      match file with
      | .error e => ([], some e)
      | .ok content =>
        let res := cmd_read content off len
        let ds := res.1.map fun c => Msg.data id c
        match failAfter with
        | some k =>
          if k ≤ ds.length then (ds.take k, some (.osError "read failed"))
          else (ds ++ [Msg.result id (.size res.2)], none)
        | none => (ds ++ [Msg.result id (.size res.2)], none)

/-- Handler `cmd_write` dispatched (lines 76-105): the only message is the terminal
result; every failure raises before it. -/
def run_write (id : JVal) (path : Option String) (data : Option Bytes)
    (fs : WFS) (f : FailSpec) : WFS × HOut :=
  match path with
  | none => (fs, [], some (.keyError "path"))
  | some s =>
    if s = "" then (fs, [], some (.valueError "empty path"))
    else
      match data with
      | none => (fs, [], some (.keyError "data"))
      | some d =>
        match cmd_write_fs fs d f with
        | (fs1, .ok n) => (fs1, [Msg.result id (.size n)], none)
        | (fs1, .error e) => (fs1, [], some e)

/-- Handler `cmd_sudo_write` dispatched (lines 108-141). -/
def run_sudo_write (id : JVal) (path : Option String) (data : Option Bytes)
    (mode : Option Nat) (uid gid : Option Int) (o : SudoOracle) : HOut :=
  match path with
  | none => ([], some (.keyError "path"))
  | some s =>
    match data with
    | none => ([], some (.keyError "data"))
    | some d =>
      match cmd_sudo_write s d mode uid gid o with
      | (_, .ok n) => ([Msg.result id (.size n)], none)
      | (_, .error e) => ([], some e)

/-- Handler `cmd_stat` dispatched (lines 144-164). -/
def run_stat (id : JVal) (path : Option String) (follow : Bool) (fs : FSMap) : HOut :=
  match path with
  | none => ([], some (.keyError "path"))
  | some s =>
    match cmd_stat_fs fs s follow with
    | .error e => ([], some e)
    | .ok r => ([Msg.result id (.statR r.size r.dir r.file r.link)], none)

/-- Handler `cmd_ls` dispatched (lines 167-202): `os.scandir` either raises or the
entry loop (whose per-entry failures are swallowed) yields `n` listable
entries and a single terminal result. -/
def run_ls (id : JVal) (path : Option String) (scan : Except PyExc Nat) : HOut :=
  match path with
  | none => ([], some (.keyError "path"))
  | some s =>
    if s = "" then ([], some (.valueError "empty path"))
    else
      match scan with
      | .error e => ([], some e)
      | .ok n => ([Msg.result id (.entriesR n)], none)

/-- Handler `cmd_rm` dispatched (lines 205-208): `os.unlink` then `r={}`. -/
def run_rm (id : JVal) (path : Option String) (osErr : Option PyExc) : HOut :=
  match path with
  | none => ([], some (.keyError "path"))
  | some s =>
    if s = "" then ([], some (.valueError "empty path"))
    else
      match osErr with
      | some e => ([], some e)
      | none => ([Msg.result id .unitR], none)

/-- Handler `cmd_rmdir` dispatched (lines 211-214): `os.rmdir` then `r={}`. -/
def run_rmdir (id : JVal) (path : Option String) (osErr : Option PyExc) : HOut :=
  match path with
  | none => ([], some (.keyError "path"))
  | some s =>
    if s = "" then ([], some (.valueError "empty path"))
    else
      match osErr with
      | some e => ([], some e)
      | none => ([Msg.result id .unitR], none)

/-- Handler `cmd_mkdir` dispatched (lines 217-224): `os.makedirs`/`os.mkdir`
depending on `parents`, then `r={}`. -/
def run_mkdir (id : JVal) (path : Option String) (_parents : Bool)
    (osErr : Option PyExc) : HOut :=
  match path with
  | none => ([], some (.keyError "path"))
  | some s =>
    if s = "" then ([], some (.valueError "empty path"))
    else
      match osErr with
      | some e => ([], some e)
      | none =>
        ([Msg.result id .unitR], none)

/-- Handler `cmd_mv` dispatched (lines 227-233): both paths validated, then
`shutil.move`, then `r={}`. -/
def run_mv (id : JVal) (src dst : Option String) (osErr : Option PyExc) : HOut :=
  match src with
  | none => ([], some (.keyError "from"))
  | some s =>
    if s = "" then ([], some (.valueError "empty path"))
    else
      match dst with
      | none => ([], some (.keyError "to"))
      | some t =>
        if t = "" then ([], some (.valueError "empty path"))
        else
          match osErr with
          | some e => ([], some e)
          | none => ([Msg.result id .unitR], none)

/-- Handler `cmd_cp` dispatched (lines 236-240): `shutil.copy2`, then a terminal
result carrying `os.path.getsize(dst)`. -/
def run_cp (id : JVal) (src dst : Option String) (osErr : Option PyExc) (sz : Nat) : HOut :=
  match dst with
  | none => ([], some (.keyError "to"))
  | some t =>
    if t = "" then ([], some (.valueError "empty path"))
    else
      match src with
      | none => ([], some (.keyError "from"))
      | some s =>
        if s = "" then ([], some (.valueError "empty path"))
        else
          match osErr with
          | some e => ([], some e)
          | none => ([Msg.result id (.size sz)], none)

/-- Handler `cmd_realpath` dispatched (lines 243-245): the validated path is the
result (resolution itself modelled elsewhere; `resolved` is its output). -/
def run_realpath (id : JVal) (path : Option String) (resolved : String) : HOut :=
  match path with
  | none => ([], some (.keyError "path"))
  | some s =>
    if s = "" then ([], some (.valueError "empty path"))
    else ([Msg.result id (.pathR resolved)], none)

/-- Handler `cmd_chmod` dispatched (lines 248-251). -/
def run_chmod (id : JVal) (path : Option String) (mode : Option Nat)
    (osErr : Option PyExc) : HOut :=
  match path with
  | none => ([], some (.keyError "path"))
  | some s =>
    if s = "" then ([], some (.valueError "empty path"))
    else
      match mode with
      | none => ([], some (.keyError "mode"))
      | some _ =>
        match osErr with
        | some e => ([], some e)
        | none => ([Msg.result id .unitR], none)

/-- Handler `cmd_append` dispatched (lines 254-262): open for append, write, fsync,
then `r={"size": len(data)}`. -/
def run_append (id : JVal) (path : Option String) (data : Option Bytes)
    (osErr : Option PyExc) : HOut :=
  match path with
  | none => ([], some (.keyError "path"))
  | some s =>
    if s = "" then ([], some (.valueError "empty path"))
    else
      match data with
      | none => ([], some (.keyError "data"))
      | some d =>
        match osErr with
        | some e => ([], some e)
        | none => ([Msg.result id (.size d.length)], none)

/-- Handler `cmd_truncate` dispatched (lines 265-269). -/
def run_truncate (id : JVal) (path : Option String) (len : Option Nat)
    (osErr : Option PyExc) : HOut :=
  match path with
  | none => ([], some (.keyError "path"))
  | some s =>
    if s = "" then ([], some (.valueError "empty path"))
    else
      match len with
      | none => ([], some (.keyError "len"))
      | some _ =>
        match osErr with
        | some e => ([], some e)
        | none => ([Msg.result id .unitR], none)

/-- Handler `cmd_patch` dispatched (lines 272-315): `src` validated, `dst` defaults
to `src`, the recipe runs under the atomic temp-file discipline, terminal
`r={}`. -/
def run_patch (id : JVal) (src : Option String) (dst : Option String)
    (srcContent : Bytes) (ops : Option (List PatchOp)) (fs : WFS) (f : FailSpec) :
    WFS × HOut :=
  match src with
  | none => (fs, [], some (.keyError "src"))
  | some s =>
    if s = "" then (fs, [], some (.valueError "empty path"))
    else
      let d := dst.getD s
      if d = "" then (fs, [], some (.valueError "empty path"))
      else
        match ops with
        | none => (fs, [], some (.keyError "ops"))
        | some opl =>
          match cmd_patch_fs fs srcContent opl f with
          | (fs1, .ok _) => (fs1, [Msg.result id .unitR], none)
          | (fs1, .error e) => (fs1, [], some e)

/-- Handler `cmd_exists` dispatched (lines 318-324): `p["path"]`'s `KeyError` is not
in the handler's `except (ValueError, OSError)` and propagates; everything
else—including an invalid path—answers `r={"exists": ...}`. -/
def run_exists (id : JVal) (path : Option String) (there : Bool) : HOut :=
  match path with
  | none => ([], some (.keyError "path"))
  | some s =>
    if s = "" then ([Msg.result id (.boolR false)], none)
    else ([Msg.result id (.boolR there)], none)

/-- Handler `cmd_info` dispatched (lines 327-332). -/
def run_info (id : JVal) : HOut := ([Msg.result id .infoR], none)

/-- Handler `cmd_exec` dispatched (lines 338-400): a missing `cmd` raises; a spawn
`FileNotFoundError`/`PermissionError` is answered inline with a terminal
error; any other spawn failure propagates; on success the streaming thread
owns the request id and eventually emits its messages (`iters`/`fin`).
Under the no-id-reuse contract those are exactly the messages for this id. -/
def run_exec (id : JVal) (cmd : Option String) (spawn : SpawnResult) : HOut :=
  match cmd with
  | none => ([], some (.keyError "cmd"))
  | some c =>
    match spawn with
    | .fnf => ([Msg.error id ("command not found: " ++ c)], none)
    | .permDenied => ([Msg.error id ("permission denied: " ++ c)], none)
    | .raisedS e => ([], some e)
    | .ok iters fin => (stream_output id iters fin, none)

/-- Handler `cmd_kill` dispatched (lines 403-417): terminate the target's process
and reply `r={}` if tracked, else the `process not found` error. -/
def run_kill (id : JVal) (target : Option Int) (s : AgentState) : HOut :=
  match target with
  | none => ([], some (.keyError "id"))
  | some t =>
    if t ∈ s.procs then ([Msg.result id .unitR], none)
    else ([Msg.error id "process not found"], none)

/-- Handler `cmd_cancel` dispatched (lines 420-430). -/
def run_cancel (id : JVal) (target : Option Int) (s : AgentState) : HOut :=
  match target with
  | none => ([], some (.keyError "id"))
  | some t => ([(cmd_cancel id s t).2.2], none)

/-- One request dispatched to a known method, with its params and oracles:
one constructor per entry of `METHODS` (lines 435-456). -/
inductive Invocation where
  | readI (path : Option String) (off : Nat) (len : Option Nat)
      (file : Except PyExc Bytes) (failAfter : Option Nat)
  | writeI (path : Option String) (data : Option Bytes) (fs : WFS) (f : FailSpec)
  | sudoWriteI (path : Option String) (data : Option Bytes) (mode : Option Nat)
      (uid gid : Option Int) (o : SudoOracle)
  | statI (path : Option String) (follow : Bool) (fs : FSMap)
  | lsI (path : Option String) (scan : Except PyExc Nat)
  | rmI (path : Option String) (osErr : Option PyExc)
  | rmdirI (path : Option String) (osErr : Option PyExc)
  | mkdirI (path : Option String) (parents : Bool) (osErr : Option PyExc)
  | mvI (src dst : Option String) (osErr : Option PyExc)
  | cpI (src dst : Option String) (osErr : Option PyExc) (sz : Nat)
  | realpathI (path : Option String) (resolved : String)
  | chmodI (path : Option String) (mode : Option Nat) (osErr : Option PyExc)
  | appendI (path : Option String) (data : Option Bytes) (osErr : Option PyExc)
  | truncateI (path : Option String) (len : Option Nat) (osErr : Option PyExc)
  | patchI (src dst : Option String) (srcContent : Bytes)
      (ops : Option (List PatchOp)) (fs : WFS) (f : FailSpec)
  | existsI (path : Option String) (there : Bool)
  | infoI
  | execI (cmd : Option String) (spawn : SpawnResult)
  | killI (target : Option Int) (s : AgentState)
  | cancelI (target : Option Int) (s : AgentState)

/-- The complete message sequence the agent emits for one dispatched request
(the handler's own sends, the dispatcher's error translation if it raised,
and for `exec` the streaming thread's later messages). -/
def dispatchKnown (id : JVal) : Invocation → List Msg
  | .readI p o l f k => finishTrace id (run_read id p o l f k)
  | .writeI p d fs f => finishTrace id (run_write id p d fs f).2
  | .sudoWriteI p d m u g o => finishTrace id (run_sudo_write id p d m u g o)
  | .statI p fl fs => finishTrace id (run_stat id p fl fs)
  | .lsI p sc => finishTrace id (run_ls id p sc)
  | .rmI p e => finishTrace id (run_rm id p e)
  | .rmdirI p e => finishTrace id (run_rmdir id p e)
  | .mkdirI p pa e => finishTrace id (run_mkdir id p pa e)
  | .mvI s d e => finishTrace id (run_mv id s d e)
  | .cpI s d e sz => finishTrace id (run_cp id s d e sz)
  | .realpathI p r => finishTrace id (run_realpath id p r)
  | .chmodI p m e => finishTrace id (run_chmod id p m e)
  | .appendI p d e => finishTrace id (run_append id p d e)
  | .truncateI p l e => finishTrace id (run_truncate id p l e)
  | .patchI s d sc ops fs f => finishTrace id (run_patch id s d sc ops fs f).2
  | .existsI p t => finishTrace id (run_exists id p t)
  | .infoI => finishTrace id (run_info id)
  | .execI c sp => finishTrace id (run_exec id c sp)
  | .killI t s => finishTrace id (run_kill id t s)
  | .cancelI t s => finishTrace id (run_cancel id t s)

/-- Is a message a progress (`d`) message? -/
def isData : Msg → Bool
  | .data _ _ => true
  | .dataOut _ _ => true
  | .dataErr _ _ => true
  | _ => false

/-- Is a message terminal (`r` or `e`)? -/
def isTerminal : Msg → Bool
  | .result _ _ => true
  | .error _ _ => true
  | _ => false

/-- The per-request protocol shape: zero or more `data` messages followed by
exactly one terminal message. -/
def traceOk : List Msg → Bool
  | [] => false
  | [m] => isTerminal m
  | m :: rest => isData m && traceOk rest

/-- A handler outcome is well-shaped when a return carries a full trace and
a raise carries only `data` messages (the dispatcher appends the terminal). -/
def shapeOk (out : HOut) : Prop :=
  match out.2 with
  | none => traceOk out.1 = true
  | some _ => ∀ m ∈ out.1, isData m = true

/-- A handler table that simply replies success (irrelevant to the crash:
the failing line never reaches a handler). -/
def hbInert : HandlerBehavior := fun _ id _ => .ret [Msg.result id .unitR]

/-- A two-entry filesystem: `ln` is a symlink to the regular file `tgt`. -/
def fsEx : FSMap := [("ln", .link "tgt"), ("tgt", .file 3)]

/-! ## Lemmas about the read loop -/

/-- With a falsy `len` (absent, or `0`) the loop reads `CHUNK` at a time and
emits the whole remainder of the file from the cursor. -/
theorem readLoopF_falsy (len : Option Nat) (hlen : truthy len = false) :
    ∀ (fuel : Nat) (file : Bytes) (pos total : Nat), file.length - pos < fuel →
      (readLoopF fuel file pos len total).1.flatten = file.drop pos ∧
      (readLoopF fuel file pos len total).2 = total + (file.drop pos).length := by
  intro fuel
  induction fuel with
  | zero => intro file pos total h; omega
  | succ m ih =>
    intro file pos total h
    have hCHUNK : CHUNK = 65536 := rfl
    simp only [readLoopF, toRead, hlen, Bool.false_eq_true, if_false, Bool.false_and]
    set rem := file.drop pos with hremdef
    have hremlen : rem.length = file.length - pos := by
      rw [hremdef, List.length_drop]
    by_cases hc : rem.take CHUNK = []
    · rw [if_pos hc]
      rcases List.take_eq_nil_iff.mp hc with h0 | hnil
      · omega
      · simp [hnil]
    · rw [if_neg hc]
      dsimp only
      set c := (rem.take CHUNK).length with hcdef
      have hck : c = min CHUNK rem.length := by
        rw [hcdef, List.length_take]
      have hlen1 : 0 < c := by
        rw [hcdef]; exact List.length_pos.mpr hc
      have hremne : rem ≠ [] := fun hn => hc (by simp [hn])
      have hposlt : pos < file.length := by
        have := List.length_pos.mpr hremne
        omega
      have hih := ih file (pos + c) (total + c) (by omega)
      have hdd : file.drop (pos + c) = rem.drop c := by
        rw [hremdef, List.drop_drop]
      constructor
      · simp only [List.flatten_cons]
        rw [hih.1, hdd]
        by_cases hle : rem.length ≤ CHUNK
        · have h1 : rem.take CHUNK = rem := List.take_of_length_le hle
          rw [h1, List.drop_eq_nil_iff.mpr (by omega)]
          simp
        · have h2 : c = CHUNK := by omega
          rw [h2, List.take_append_drop]
      · rw [hih.2, hdd, List.length_drop]
        omega

/-- With a positive `len = n` and fewer than `n` bytes already accounted,
the loop emits exactly the next `n - total` bytes (clipped at EOF). -/
theorem readLoopF_truthy (n : Nat) :
    ∀ (fuel : Nat) (file : Bytes) (pos total : Nat), total < n →
      file.length - pos < fuel →
      (readLoopF fuel file pos (some n) total).1.flatten =
        (file.drop pos).take (n - total) ∧
      (readLoopF fuel file pos (some n) total).2 =
        total + ((file.drop pos).take (n - total)).length := by
  intro fuel
  induction fuel with
  | zero => intro file pos total _ h; omega
  | succ m ih =>
    intro file pos total htn h
    have hCHUNK : CHUNK = 65536 := rfl
    have htr : truthy (some n) = true := by
      simp [truthy]; omega
    have hto : toRead (some n) total = min CHUNK (n - total) := by
      simp [toRead, htr]
    simp only [readLoopF, hto, htr, Option.getD_some, Bool.true_and, decide_eq_true_eq]
    set rem := file.drop pos with hremdef
    have hremlen : rem.length = file.length - pos := by
      rw [hremdef, List.length_drop]
    by_cases hc : rem.take (min CHUNK (n - total)) = []
    · rw [if_pos hc]
      rcases List.take_eq_nil_iff.mp hc with h0 | hnil
      · omega
      · simp [hnil]
    · rw [if_neg hc]
      set c := (rem.take (min CHUNK (n - total))).length with hcdef
      have hck : c = min (min CHUNK (n - total)) rem.length := by
        rw [hcdef, List.length_take]
      have hlen1 : 0 < c := by
        rw [hcdef]; exact List.length_pos.mpr hc
      have hremne : rem ≠ [] := fun hn => hc (by simp [hn])
      have hposlt : pos < file.length := by
        have := List.length_pos.mpr hremne
        omega
      by_cases hbreak : n ≤ total + c
      · rw [if_pos hbreak]
        have hto2 : min CHUNK (n - total) = n - total := by omega
        constructor
        · simp only [List.flatten_cons, List.flatten_nil, List.append_nil]
          rw [hto2]
        · dsimp only
          rw [List.length_take]
          omega
      · rw [if_neg hbreak]
        have hih := ih file (pos + c) (total + c) (by omega) (by omega)
        have hdd : file.drop (pos + c) = rem.drop c := by
          rw [hremdef, List.drop_drop]
        constructor
        · simp only [List.flatten_cons]
          rw [hih.1, hdd]
          by_cases hfull : min CHUNK (n - total) ≤ rem.length
          · have hceq : c = min CHUNK (n - total) := by omega
            rw [← hceq]
            have h1 : n - (total + c) = n - total - c := by omega
            rw [h1]
            calc rem.take c ++ (rem.drop c).take (n - total - c)
                = rem.take (c + (n - total - c)) := (List.take_add ..).symm
              _ = rem.take (n - total) := by congr 1; omega
          · have hall : rem.take (min CHUNK (n - total)) = rem :=
              List.take_of_length_le (by omega)
            rw [hall, List.drop_eq_nil_iff.mpr (by omega)]
            simp only [List.take_nil, List.append_nil]
            rw [List.take_of_length_le (by omega)]
        · dsimp only
          rw [hih.2, hdd, List.length_take, List.length_take, List.length_drop]
          omega

/-- Every chunk the loop emits is at most `CHUNK` bytes. -/
theorem readLoopF_chunk_le :
    ∀ (fuel : Nat) (file : Bytes) (pos : Nat) (len : Option Nat) (total : Nat)
      (c : Bytes), c ∈ (readLoopF fuel file pos len total).1 → c.length ≤ CHUNK := by
  intro fuel
  induction fuel with
  | zero => intro file pos len total c hc; simp [readLoopF] at hc
  | succ m ih =>
    intro file pos len total c hc
    have hto : toRead len total ≤ CHUNK := by
      unfold toRead; split <;> omega
    simp only [readLoopF] at hc
    split at hc
    · simp at hc
    · split at hc
      · simp at hc
        subst hc
        calc ((file.drop pos).take (toRead len total)).length
            ≤ toRead len total := by rw [List.length_take]; omega
          _ ≤ CHUNK := hto
      · simp at hc
        rcases hc with hc | hc
        · subst hc
          calc ((file.drop pos).take (toRead len total)).length
              ≤ toRead len total := by rw [List.length_take]; omega
            _ ≤ CHUNK := hto
        · exact ih _ _ _ _ _ hc

/-- Reading with `len = 0` takes exactly the same path as an absent `len` (both are falsy
in the two `if length` tests). -/
theorem readLoopF_zero_eq_none :
    ∀ (fuel : Nat) (file : Bytes) (pos total : Nat),
      readLoopF fuel file pos (some 0) total = readLoopF fuel file pos none total := by
  intro fuel
  induction fuel with
  | zero => intro file pos total; rfl
  | succ m ih =>
    intro file pos total
    simp only [readLoopF, toRead, truthy]
    norm_num
    rw [ih]

/-! ## Lemmas about the patch recipe -/

/-- Consecutive copies starting at `off` reproduce the contiguous region of
the source they cover (clipped at EOF). -/
theorem applyOps_mkCopies (src : Bytes) :
    ∀ (ls : List Nat) (off : Nat),
      applyOps src (mkCopies off ls) = (src.drop off).take ls.sum := by
  intro ls
  induction ls with
  | nil => intro off; simp [applyOps, mkCopies]
  | cons l ls ih =>
    intro off
    have ih' := ih (off + l)
    simp only [applyOps, mkCopies, List.map_cons, List.flatten_cons, List.sum_cons] at ih' ⊢
    rw [ih']
    show (src.drop off).take l ++ (src.drop (off + l)).take ls.sum = _
    rw [List.take_add, List.drop_drop]

/-! ## Claim C2 — chunked read -/

/-- C2 (counterexample): the claim quantifies over every `N ≥ 0`, but for
`N = 0` the Python truthiness test `if length` treats `len=0` like an absent
`len`: on the one-byte file `[65]`, `read(off=0, len=0)` emits the whole
file and reports size 1, not the first 0 bytes with size 0. -/
theorem read_len_zero_counterexample :
    ¬ (((cmd_read [65] 0 (some 0)).1.flatten = ([] : Bytes)) ∧
        (cmd_read [65] 0 (some 0)).2 = 0) := by
  decide

/-- C2 (amended): for every `N ≥ 1` and file of size ≥ N, `read` with
`off=0, len=N` emits chunks concatenating to exactly the first N bytes and
a terminal size of N; with `len` omitted it emits the entire remainder from
the given offset; `len = 0` behaves exactly like `len` omitted; and every
emitted chunk is at most `CHUNK = 64 KiB` (the concatenation equality also
fixes the chunk order to source-file byte order). -/
theorem read_chunking_correct (file : Bytes) (off n : Nat) (len : Option Nat) :
    (1 ≤ n → n ≤ file.length →
      (cmd_read file 0 (some n)).1.flatten = file.take n ∧
        (cmd_read file 0 (some n)).2 = n) ∧
    ((cmd_read file off none).1.flatten = file.drop off ∧
      (cmd_read file off none).2 = (file.drop off).length) ∧
    cmd_read file off (some 0) = cmd_read file off none ∧
    ∀ c ∈ (cmd_read file off len).1, c.length ≤ CHUNK := by
  refine ⟨?_, ?_, ?_, ?_⟩
  · intro h1 h2
    have hm := readLoopF_truthy n (file.length + 1) file 0 0 (by omega) (by omega)
    unfold cmd_read
    rcases hm with ⟨hj, ht⟩
    simp only [List.drop_zero, Nat.sub_zero] at hj ht
    refine ⟨hj, ?_⟩
    rw [ht, List.length_take]
    omega
  · have hm := readLoopF_falsy none rfl (file.length + 1) file off 0 (by omega)
    unfold cmd_read
    exact ⟨hm.1, by rw [hm.2]; omega⟩
  · unfold cmd_read
    exact readLoopF_zero_eq_none ..
  · intro c hc
    exact readLoopF_chunk_le _ _ _ _ _ _ hc

/-- Witness for the amended C2 at a concrete input. -/
theorem read_chunking_correct_witness :
    (cmd_read [10, 20, 30] 0 (some 2)).1.flatten = [10, 20, 30].take 2 ∧
      (cmd_read [10, 20, 30] 0 (some 2)).2 = 2 :=
  (read_chunking_correct [10, 20, 30] 0 2 none).1 (by norm_num) (by norm_num)

/-! ## Claim C4 — patch round-trip -/

/-- C4: a recipe of copy ops covering the entire original in order
reproduces the original byte-for-byte, and the concrete mixed recipe on
`"ABCDEF"` (`[65,…,70]`) with `[copy(0,2), insert("XY"), copy(4,2)]`
produces `"ABXYEF"` (`[65,66,88,89,69,70]`). -/
theorem patch_roundtrip :
    (∀ (src : Bytes) (ls : List Nat), ls.sum = src.length →
        applyOps src (mkCopies 0 ls) = src) ∧
      applyOps [65, 66, 67, 68, 69, 70]
        [{ copy := some (0, 2), insert := none },
         { copy := none, insert := some [88, 89] },
         { copy := some (4, 2), insert := none }] = [65, 66, 88, 89, 69, 70] := by
  constructor
  · intro src ls hsum
    rw [applyOps_mkCopies, List.drop_zero, hsum, List.take_length]
  · decide

/-- Witness for C4 at a concrete input. -/
theorem patch_roundtrip_witness :
    applyOps [7, 8, 9] (mkCopies 0 [1, 2]) = [7, 8, 9] :=
  patch_roundtrip.1 [7, 8, 9] [1, 2] (by norm_num)

/-! ## Claim C9 — ops with neither `copy` nor `insert` -/

/-- C9: an op carrying neither a `copy` nor an `insert` key falls through
the `if`/`elif` (agent.py lines 294-299): it contributes no bytes to the
output, and the patch call still succeeds, producing the same destination
as the recipe without it. -/
theorem patch_unknown_op_skipped (src : Bytes) (pre post : List PatchOp) (op : PatchOp)
    (h1 : op.copy = none) (h2 : op.insert = none) (fs : WFS) :
    applyOps src (pre ++ op :: post) = applyOps src (pre ++ post) ∧
      (cmd_patch_fs fs src (pre ++ op :: post) noFail).2 = .ok () ∧
      (cmd_patch_fs fs src (pre ++ op :: post) noFail).1.dst =
        some (applyOps src (pre ++ post)) := by
  have hz : applyOp src op = [] := by simp [applyOp, h1, h2]
  have hmain : applyOps src (pre ++ op :: post) = applyOps src (pre ++ post) := by
    simp [applyOps, hz]
  refine ⟨hmain, rfl, ?_⟩
  show some (applyOps src (pre ++ op :: post)) = some (applyOps src (pre ++ post))
  rw [hmain]

/-- Witness for C9 at a concrete input. -/
theorem patch_unknown_op_skipped_witness :
    applyOps [1, 2] [{ copy := some (0, 1), insert := none }, { copy := none, insert := none }] =
      applyOps [1, 2] [{ copy := some (0, 1), insert := none }] :=
  (patch_unknown_op_skipped [1, 2] [{ copy := some (0, 1), insert := none }] []
    { copy := none, insert := none } rfl rfl ⟨none, none⟩).1

/-! ## Claim C1 — atomic write/patch with temp-file cleanup -/

/-- The try body either succeeds, leaving exactly the new content installed
and no temp file, or raises, leaving the destination untouched. -/
theorem writeBody_spec (fs : WFS) (out : Bytes) (f : FailSpec) :
    ((writeBody fs out f).2 = none ∧ (writeBody fs out f).1 = ⟨some out, none⟩) ∨
      ((∃ e, (writeBody fs out f).2 = some e) ∧ (writeBody fs out f).1.dst = fs.dst) := by
  rcases f with ⟨fp, fm, fc, fr, fu⟩
  cases fp with
  | some e => exact Or.inr ⟨⟨e, rfl⟩, rfl⟩
  | none =>
    cases fm with
    | some ke => exact Or.inr ⟨⟨ke.2, rfl⟩, rfl⟩
    | none =>
      cases fc with
      | some e =>
        by_cases hd : fs.dst.isSome
        · refine Or.inr ⟨⟨e, ?_⟩, ?_⟩ <;> simp [writeBody, hd]
        · cases fr with
          | some e2 =>
            refine Or.inr ⟨⟨e2, ?_⟩, ?_⟩ <;> simp [writeBody, hd]
          | none =>
            refine Or.inl ⟨?_, ?_⟩ <;> simp [writeBody, hd]
      | none =>
        cases fr with
        | some e2 => exact Or.inr ⟨⟨e2, rfl⟩, rfl⟩
        | none => exact Or.inl ⟨rfl, rfl⟩

/-- Cleanup never touches the destination. -/
theorem writeCleanup_dst (fs : WFS) (b : Bool) : (writeCleanup fs b).dst = fs.dst := by
  rcases fs with ⟨d, t⟩
  unfold writeCleanup
  cases t
  · rfl
  · dsimp only
    split <;> rfl

/-- When the unlink itself does not fail, cleanup removes the temp file. -/
theorem writeCleanup_tmp_of_ok (fs : WFS) : (writeCleanup fs false).tmp = none := by
  rcases fs with ⟨d, t⟩
  unfold writeCleanup
  cases t
  · rfl
  · rfl

/-- Call `cmd_write_fs` ends with either the old or the new destination
content; a successful run leaves no temp file (`os.replace` consumed it); a
failed run keeps the old destination and, whenever the `finally` unlink
itself succeeds, no temp file either. -/
theorem cmd_write_fs_spec (fs : WFS) (data : Bytes) (f : FailSpec) :
    ((cmd_write_fs fs data f).2 = .ok data.length ∧
        (cmd_write_fs fs data f).1 = ⟨some data, none⟩) ∨
      ((∃ e, (cmd_write_fs fs data f).2 = .error e) ∧
        (cmd_write_fs fs data f).1.dst = fs.dst ∧
        (f.failUnlink = false → (cmd_write_fs fs data f).1.tmp = none)) := by
  rcases writeBody_spec fs data f with ⟨h2, h1⟩ | ⟨⟨e, h2⟩, h1⟩
  · left
    simp only [cmd_write_fs, h2, h1]
    exact ⟨trivial, rfl⟩
  · right
    simp only [cmd_write_fs, h2]
    refine ⟨⟨e, rfl⟩, ?_, ?_⟩
    · show (writeCleanup (writeBody fs data f).1 f.failUnlink).dst = fs.dst
      rw [writeCleanup_dst, h1]
    · intro hu
      show (writeCleanup (writeBody fs data f).1 f.failUnlink).tmp = none
      rw [hu, writeCleanup_tmp_of_ok]

/-- Same shape for `cmd_patch_fs`, with the new content `applyOps src ops`. -/
theorem cmd_patch_fs_spec (fs : WFS) (src : Bytes) (ops : List PatchOp) (f : FailSpec) :
    ((cmd_patch_fs fs src ops f).2 = .ok () ∧
        (cmd_patch_fs fs src ops f).1 = ⟨some (applyOps src ops), none⟩) ∨
      ((∃ e, (cmd_patch_fs fs src ops f).2 = .error e) ∧
        (cmd_patch_fs fs src ops f).1.dst = fs.dst ∧
        (f.failUnlink = false → (cmd_patch_fs fs src ops f).1.tmp = none)) := by
  rcases writeBody_spec fs (applyOps src ops) f with ⟨h2, h1⟩ | ⟨⟨e, h2⟩, h1⟩
  · left
    simp only [cmd_patch_fs, h2, h1]
    exact ⟨trivial, rfl⟩
  · right
    simp only [cmd_patch_fs, h2]
    refine ⟨⟨e, rfl⟩, ?_, ?_⟩
    · show (writeCleanup (writeBody fs (applyOps src ops) f).1 f.failUnlink).dst = fs.dst
      rw [writeCleanup_dst, h1]
    · intro hu
      show (writeCleanup (writeBody fs (applyOps src ops) f).1 f.failUnlink).tmp = none
      rw [hu, writeCleanup_tmp_of_ok]

/-- C1 (counterexample): the temp sibling is NOT removed on every exit
path.  A run of `write` onto an existing destination whose `os.replace`
raises and whose `finally` unlink then raises `OSError` — a path the source
itself anticipates with `except OSError: pass` (agent.py lines 100-103) —
reports the failure but leaves the temp file, with the new content, on
disk. -/
theorem write_cleanup_counterexample :
    (cmd_write_fs ⟨some [1], none⟩ [2]
        ⟨none, none, none, some (.osError "boom"), true⟩).2 =
          .error (.osError "boom") ∧
      (cmd_write_fs ⟨some [1], none⟩ [2]
        ⟨none, none, none, some (.osError "boom"), true⟩).1.tmp = some [2] :=
  ⟨rfl, rfl⟩

/-- C1 (amended): on every run of `write` or `patch` — whichever OS step
fails, if any — the destination ends as exactly its original content or
exactly the new content (the decoded data for `write`, the recipe output
for `patch`); on a failed run the destination is unchanged and the
dispatched request ends with exactly one error message carrying the
dispatcher's translation of the exception; the temp sibling is gone on
every exit path on which the `finally` unlink itself does not fail — in
particular on every successful run — while an `OSError` from that unlink is
swallowed and may leave the temp file behind. -/
theorem write_patch_atomic :
    (∀ (fs : WFS) (data : Bytes) (f : FailSpec),
      ((cmd_write_fs fs data f).1.dst = fs.dst ∨
          (cmd_write_fs fs data f).1.dst = some data) ∧
        (f.failUnlink = false → (cmd_write_fs fs data f).1.tmp = none) ∧
        ((cmd_write_fs fs data f).2 = .ok data.length →
          (cmd_write_fs fs data f).1.tmp = none) ∧
        ∀ e, (cmd_write_fs fs data f).2 = .error e →
          (cmd_write_fs fs data f).1.dst = fs.dst) ∧
    (∀ (fs : WFS) (src : Bytes) (ops : List PatchOp) (f : FailSpec),
      ((cmd_patch_fs fs src ops f).1.dst = fs.dst ∨
          (cmd_patch_fs fs src ops f).1.dst = some (applyOps src ops)) ∧
        (f.failUnlink = false → (cmd_patch_fs fs src ops f).1.tmp = none) ∧
        ((cmd_patch_fs fs src ops f).2 = .ok () →
          (cmd_patch_fs fs src ops f).1.tmp = none) ∧
        ∀ e, (cmd_patch_fs fs src ops f).2 = .error e →
          (cmd_patch_fs fs src ops f).1.dst = fs.dst) ∧
    (∀ (id : JVal) (s : String) (data : Bytes) (fs : WFS) (f : FailSpec) (e : PyExc),
      s ≠ "" → (cmd_write_fs fs data f).2 = .error e →
        dispatchKnown id (.writeI (some s) (some data) fs f) =
          [Msg.error id (excText e)]) ∧
    (∀ (id : JVal) (s : String) (srcContent : Bytes) (ops : List PatchOp)
        (fs : WFS) (f : FailSpec) (e : PyExc),
      s ≠ "" → (cmd_patch_fs fs srcContent ops f).2 = .error e →
        dispatchKnown id (.patchI (some s) none srcContent (some ops) fs f) =
          [Msg.error id (excText e)]) := by
  refine ⟨?_, ?_, ?_, ?_⟩
  · intro fs data f
    rcases cmd_write_fs_spec fs data f with ⟨h2, h1⟩ | ⟨⟨e, h2⟩, h1, h3⟩
    · refine ⟨Or.inr (by rw [h1]), fun _ => by rw [h1], fun _ => by rw [h1], ?_⟩
      intro e he
      rw [h2] at he
      exact absurd he (by simp)
    · refine ⟨Or.inl h1, h3, ?_, fun e2 _ => h1⟩
      intro hok
      rw [h2] at hok
      exact Except.noConfusion hok
  · intro fs src ops f
    rcases cmd_patch_fs_spec fs src ops f with ⟨h2, h1⟩ | ⟨⟨e, h2⟩, h1, h3⟩
    · refine ⟨Or.inr (by rw [h1]), fun _ => by rw [h1], fun _ => by rw [h1], ?_⟩
      intro e he
      rw [h2] at he
      exact absurd he (by simp)
    · refine ⟨Or.inl h1, h3, ?_, fun e2 _ => h1⟩
      intro hok
      rw [h2] at hok
      exact Except.noConfusion hok
  · intro id s data fs f e hs herr
    rcases hw : cmd_write_fs fs data f with ⟨fs1, r⟩
    rw [hw] at herr
    simp only at herr
    subst herr
    simp [dispatchKnown, run_write, finishTrace, hs, hw]
  · intro id s srcContent ops fs f e hs herr
    rcases hw : cmd_patch_fs fs srcContent ops f with ⟨fs1, r⟩
    rw [hw] at herr
    simp only at herr
    subst herr
    simp [dispatchKnown, run_patch, finishTrace, hs, hw]

/-- Witness for the amended C1 at a concrete input: a run whose
`os.replace` fails but whose unlink succeeds leaves the pre-existing
destination untouched and no temp file. -/
theorem write_patch_atomic_witness :
    (cmd_write_fs ⟨some [1], some [9]⟩ [2]
        ⟨none, none, none, some (.osError "boom"), false⟩).1.dst = some [1] ∧
      (cmd_write_fs ⟨some [1], some [9]⟩ [2]
        ⟨none, none, none, some (.osError "boom"), false⟩).1.tmp = none :=
  ⟨(write_patch_atomic.1 ⟨some [1], some [9]⟩ [2]
      ⟨none, none, none, some (.osError "boom"), false⟩).2.2.2 (.osError "boom") rfl,
   (write_patch_atomic.1 ⟨some [1], some [9]⟩ [2]
      ⟨none, none, none, some (.osError "boom"), false⟩).2.1 rfl⟩

/-! ## Claim C5 — zero or more `data` messages, then exactly one terminal -/

theorem traceOk_ne_nil {tr : List Msg} (h : traceOk tr = true) : tr ≠ [] := by
  intro hn
  subst hn
  simp [traceOk] at h

/-- Prepending `data` messages preserves a well-shaped trace. -/
theorem traceOk_data_append (ds tr : List Msg)
    (hd : ∀ m ∈ ds, isData m = true) (ht : traceOk tr = true) :
    traceOk (ds ++ tr) = true := by
  induction ds with
  | nil => simpa using ht
  | cons a l ih =>
    have ha := hd a (by simp)
    have hih := ih (fun m hm => hd m (by simp [hm]))
    have hne : l ++ tr ≠ [] := by
      intro hn
      rcases List.append_eq_nil.mp hn with ⟨-, h2⟩
      exact traceOk_ne_nil ht h2
    cases hq : l ++ tr with
    | nil => exact absurd hq hne
    | cons b t =>
      show traceOk (a :: l ++ tr) = true
      rw [List.cons_append, hq]
      show (isData a && traceOk (b :: t)) = true
      rw [← hq, hih, ha]
      rfl

theorem mem_ite_single {c : Prop} [Decidable c] (x m : Msg)
    (hm : m ∈ (if c then [x] else [])) : m = x := by
  split at hm
  · simpa using hm
  · cases hm

theorem shapeOk_raise_nil (e : PyExc) : shapeOk (([] : List Msg), some e) :=
  fun m hm => absurd hm (List.not_mem_nil m)

theorem shapeOk_single (m : Msg) (h : isTerminal m = true) : shapeOk ([m], none) := h

/-- The dispatch boundary turns any well-shaped handler outcome into a
well-shaped request trace. -/
theorem finishTrace_ok (id : JVal) (out : HOut) (h : shapeOk out) :
    traceOk (finishTrace id out) = true := by
  rcases out with ⟨msgs, exc⟩
  cases exc with
  | none => simpa [finishTrace] using h
  | some e =>
    simp only [finishTrace]
    exact traceOk_data_append msgs _ h rfl

/-- Every run of the `exec` streaming loop emits some `data` messages and
then exactly one terminal message. -/
theorem stream_output_traceOk (id : JVal) :
    ∀ (iters : List StreamIter) (fin : StreamEnd),
      traceOk (stream_output id iters fin) = true := by
  intro iters
  induction iters with
  | nil =>
    intro fin
    cases fin with
    | exited out err code =>
      simp only [stream_output]
      apply traceOk_data_append
      · intro m hm
        rcases List.mem_append.mp hm with h | h
        · rw [mem_ite_single _ _ h]
          rfl
        · rw [mem_ite_single _ _ h]
          rfl
      · rfl
    | raisedE e => rfl
  | cons it rest ih =>
    intro fin
    simp only [stream_output]
    by_cases hc : it.cancelledNow
    · rw [if_pos hc]
      rfl
    · rw [if_neg hc]
      apply traceOk_data_append
      · intro m hm
        rcases List.mem_filterMap.mp hm with ⟨r, _, hm2⟩
        by_cases hz : r.2 = []
        · rw [if_pos hz] at hm2
          cases hm2
        · rw [if_neg hz] at hm2
          injection hm2 with hm3
          subst hm3
          cases hb : r.1 <;> simp [hb, isData]
      · exact ih fin

/-- C5: for every request dispatched to a known method — over all params,
oracle outcomes and failure injections — the agent emits for that request's
id zero or more `data` messages followed by exactly one terminal message
(`result` or `error`), never zero and never two terminals; for `exec` the
terminal is the one the streaming loop eventually emits (the peer's
no-concurrent-id-reuse contract makes those the only messages for the id). -/
theorem request_trace_shape (id : JVal) (inv : Invocation) :
    traceOk (dispatchKnown id inv) = true := by
  cases inv with
  | readI p off len file k =>
    apply finishTrace_ok
    unfold run_read
    cases p with
    | none => exact shapeOk_raise_nil _
    | some s =>
      dsimp only
      by_cases hs : s = ""
      · rw [if_pos hs]
        exact shapeOk_raise_nil _
      · rw [if_neg hs]
        cases file with
        | error e => exact shapeOk_raise_nil _
        | ok content =>
          dsimp only
          have hds : ∀ m ∈ (cmd_read content off len).1.map (fun c => Msg.data id c),
              isData m = true := by
            intro m hm
            rcases List.mem_map.mp hm with ⟨c, _, hc⟩
            subst hc
            rfl
          cases k with
          | none =>
            exact traceOk_data_append _ _ hds rfl
          | some j =>
            dsimp only
            by_cases hj : j ≤ ((cmd_read content off len).1.map (fun c => Msg.data id c)).length
            · rw [if_pos hj]
              intro m hm
              exact hds m (List.take_subset _ _ hm)
            · rw [if_neg hj]
              exact traceOk_data_append _ _ hds rfl
  | writeI p d fs f =>
    apply finishTrace_ok
    unfold run_write
    cases p with
    | none => exact shapeOk_raise_nil _
    | some s =>
      dsimp only
      by_cases hs : s = ""
      · rw [if_pos hs]
        exact shapeOk_raise_nil _
      · rw [if_neg hs]
        cases d with
        | none => exact shapeOk_raise_nil _
        | some dat =>
          dsimp only
          rcases hw : cmd_write_fs fs dat f with ⟨fs1, r⟩
          cases r with
          | ok n => exact shapeOk_single _ rfl
          | error e => exact shapeOk_raise_nil _
  | sudoWriteI p d m u g o =>
    apply finishTrace_ok
    unfold run_sudo_write
    cases p with
    | none => exact shapeOk_raise_nil _
    | some s =>
      dsimp only
      cases d with
      | none => exact shapeOk_raise_nil _
      | some dat =>
        dsimp only
        rcases hw : cmd_sudo_write s dat m u g o with ⟨calls, r⟩
        cases r with
        | ok n => exact shapeOk_single _ rfl
        | error e => exact shapeOk_raise_nil _
  | statI p fl fs =>
    apply finishTrace_ok
    unfold run_stat
    cases p with
    | none => exact shapeOk_raise_nil _
    | some s =>
      dsimp only
      rcases hw : cmd_stat_fs fs s fl with r | r
      · exact shapeOk_raise_nil _
      · exact shapeOk_single _ rfl
  | lsI p sc =>
    apply finishTrace_ok
    unfold run_ls
    cases p with
    | none => exact shapeOk_raise_nil _
    | some s =>
      dsimp only
      by_cases hs : s = ""
      · rw [if_pos hs]
        exact shapeOk_raise_nil _
      · rw [if_neg hs]
        cases sc with
        | error e => exact shapeOk_raise_nil _
        | ok n => exact shapeOk_single _ rfl
  | rmI p e =>
    apply finishTrace_ok
    unfold run_rm
    cases p with
    | none => exact shapeOk_raise_nil _
    | some s =>
      dsimp only
      by_cases hs : s = ""
      · rw [if_pos hs]
        exact shapeOk_raise_nil _
      · rw [if_neg hs]
        cases e with
        | some ex => exact shapeOk_raise_nil _
        | none => exact shapeOk_single _ rfl
  | rmdirI p e =>
    apply finishTrace_ok
    unfold run_rmdir
    cases p with
    | none => exact shapeOk_raise_nil _
    | some s =>
      dsimp only
      by_cases hs : s = ""
      · rw [if_pos hs]
        exact shapeOk_raise_nil _
      · rw [if_neg hs]
        cases e with
        | some ex => exact shapeOk_raise_nil _
        | none => exact shapeOk_single _ rfl
  | mkdirI p pa e =>
    apply finishTrace_ok
    unfold run_mkdir
    cases p with
    | none => exact shapeOk_raise_nil _
    | some s =>
      dsimp only
      by_cases hs : s = ""
      · rw [if_pos hs]
        exact shapeOk_raise_nil _
      · rw [if_neg hs]
        cases e with
        | some ex => exact shapeOk_raise_nil _
        | none => exact shapeOk_single _ rfl
  | mvI sp dp e =>
    apply finishTrace_ok
    unfold run_mv
    cases sp with
    | none => exact shapeOk_raise_nil _
    | some s =>
      dsimp only
      by_cases hs : s = ""
      · rw [if_pos hs]
        exact shapeOk_raise_nil _
      · rw [if_neg hs]
        cases dp with
        | none => exact shapeOk_raise_nil _
        | some t =>
          dsimp only
          by_cases ht : t = ""
          · rw [if_pos ht]
            exact shapeOk_raise_nil _
          · rw [if_neg ht]
            cases e with
            | some ex => exact shapeOk_raise_nil _
            | none => exact shapeOk_single _ rfl
  | cpI sp dp e sz =>
    apply finishTrace_ok
    unfold run_cp
    cases dp with
    | none => exact shapeOk_raise_nil _
    | some t =>
      dsimp only
      by_cases ht : t = ""
      · rw [if_pos ht]
        exact shapeOk_raise_nil _
      · rw [if_neg ht]
        cases sp with
        | none => exact shapeOk_raise_nil _
        | some s =>
          dsimp only
          by_cases hs : s = ""
          · rw [if_pos hs]
            exact shapeOk_raise_nil _
          · rw [if_neg hs]
            cases e with
            | some ex => exact shapeOk_raise_nil _
            | none => exact shapeOk_single _ rfl
  | realpathI p r =>
    apply finishTrace_ok
    unfold run_realpath
    cases p with
    | none => exact shapeOk_raise_nil _
    | some s =>
      dsimp only
      by_cases hs : s = ""
      · rw [if_pos hs]
        exact shapeOk_raise_nil _
      · rw [if_neg hs]
        exact shapeOk_single _ rfl
  | chmodI p m e =>
    apply finishTrace_ok
    unfold run_chmod
    cases p with
    | none => exact shapeOk_raise_nil _
    | some s =>
      dsimp only
      by_cases hs : s = ""
      · rw [if_pos hs]
        exact shapeOk_raise_nil _
      · rw [if_neg hs]
        cases m with
        | none => exact shapeOk_raise_nil _
        | some mo =>
          dsimp only
          cases e with
          | some ex => exact shapeOk_raise_nil _
          | none => exact shapeOk_single _ rfl
  | appendI p d e =>
    apply finishTrace_ok
    unfold run_append
    cases p with
    | none => exact shapeOk_raise_nil _
    | some s =>
      dsimp only
      by_cases hs : s = ""
      · rw [if_pos hs]
        exact shapeOk_raise_nil _
      · rw [if_neg hs]
        cases d with
        | none => exact shapeOk_raise_nil _
        | some dat =>
          dsimp only
          cases e with
          | some ex => exact shapeOk_raise_nil _
          | none => exact shapeOk_single _ rfl
  | truncateI p l e =>
    apply finishTrace_ok
    unfold run_truncate
    cases p with
    | none => exact shapeOk_raise_nil _
    | some s =>
      dsimp only
      by_cases hs : s = ""
      · rw [if_pos hs]
        exact shapeOk_raise_nil _
      · rw [if_neg hs]
        cases l with
        | none => exact shapeOk_raise_nil _
        | some ln =>
          dsimp only
          cases e with
          | some ex => exact shapeOk_raise_nil _
          | none => exact shapeOk_single _ rfl
  | patchI sp dp sc ops fs f =>
    apply finishTrace_ok
    unfold run_patch
    cases sp with
    | none => exact shapeOk_raise_nil _
    | some s =>
      dsimp only
      by_cases hs : s = ""
      · rw [if_pos hs]
        exact shapeOk_raise_nil _
      · rw [if_neg hs]
        by_cases hd : dp.getD s = ""
        · rw [if_pos hd]
          exact shapeOk_raise_nil _
        · rw [if_neg hd]
          cases ops with
          | none => exact shapeOk_raise_nil _
          | some opl =>
            dsimp only
            rcases hw : cmd_patch_fs fs sc opl f with ⟨fs1, r⟩
            cases r with
            | ok u => exact shapeOk_single _ rfl
            | error e => exact shapeOk_raise_nil _
  | existsI p t =>
    apply finishTrace_ok
    unfold run_exists
    cases p with
    | none => exact shapeOk_raise_nil _
    | some s =>
      dsimp only
      by_cases hs : s = ""
      · rw [if_pos hs]
        exact shapeOk_single _ rfl
      · rw [if_neg hs]
        exact shapeOk_single _ rfl
  | infoI =>
    show traceOk (finishTrace id (run_info id)) = true
    apply finishTrace_ok
    exact shapeOk_single _ rfl
  | execI c sp =>
    apply finishTrace_ok
    unfold run_exec
    cases c with
    | none => exact shapeOk_raise_nil _
    | some cc =>
      dsimp only
      cases sp with
      | fnf => exact shapeOk_single _ rfl
      | permDenied => exact shapeOk_single _ rfl
      | raisedS e => exact shapeOk_raise_nil _
      | ok iters fin =>
        dsimp only
        show traceOk (stream_output id iters fin) = true
        exact stream_output_traceOk id iters fin
  | killI t s =>
    apply finishTrace_ok
    unfold run_kill
    cases t with
    | none => exact shapeOk_raise_nil _
    | some tid =>
      dsimp only
      by_cases hm : tid ∈ s.procs
      · rw [if_pos hm]
        exact shapeOk_single _ rfl
      · rw [if_neg hm]
        exact shapeOk_single _ rfl
  | cancelI t s =>
    apply finishTrace_ok
    unfold run_cancel
    cases t with
    | none => exact shapeOk_raise_nil _
    | some tid => exact shapeOk_single _ rfl

/-! ## Claim C3 — the dispatch boundary never kills the process -/

/-- C3 (code bug): a line that is valid JSON but not an object — here the
line `5` — is a line "that cannot be decoded as a well-formed request", yet
it is not reported as an error against id 0: `req.get("id", 0)` on the
decoded integer raises `AttributeError` outside both `try` blocks
(agent.py line 467), nothing in `handle_request` or `main`'s read loop
catches it, and the agent process terminates. -/
theorem handle_request_non_object_crashes :
    handle_request hbInert (.value (.numJ 5)) = .error .attributeError := rfl

/-! ## Claim C6 — cancel idempotence -/

/-- C6 (counterexample): cancelling id 5 in the empty state — no tracked
process — *does* change the agent's state: `cancelled.add(target_id)` runs
unconditionally (agent.py line 423), so the cancellation-marker set grows
from `∅` to `{5}`, contradicting "tracked-process set and
cancellation-marker set unchanged afterwards". -/
theorem cancel_counterexample :
    (5 : Int) ∉ (⟨∅, ∅⟩ : AgentState).procs ∧
      (cmd_cancel (.numJ 1) ⟨∅, ∅⟩ 5).1.cancelled ≠ (⟨∅, ∅⟩ : AgentState).cancelled := by
  constructor
  · simp
  · intro h
    have h2 : (5 : Int) ∈ (cmd_cancel (.numJ 1) ⟨∅, ∅⟩ 5).1.cancelled := by
      simp [cmd_cancel]
    rw [h] at h2
    simp at h2

/-- C6 (amended): cancel on an id with no tracked process replies success,
signals no process and leaves the tracked-process set unchanged — its only
state change is adding the target id to the cancellation-marker set; and
cancelling twice in a row yields the same state, the same signalled
process and the same reply as cancelling once. -/
theorem cancel_idempotent (id : JVal) (s : AgentState) (t : Int) :
    (t ∉ s.procs →
      (cmd_cancel id s t).1.procs = s.procs ∧
        (cmd_cancel id s t).2.1 = none ∧
        (cmd_cancel id s t).1.cancelled = insert t s.cancelled ∧
        (cmd_cancel id s t).2.2 = Msg.result id .unitR) ∧
    ((cmd_cancel id (cmd_cancel id s t).1 t).1 = (cmd_cancel id s t).1 ∧
      (cmd_cancel id (cmd_cancel id s t).1 t).2.1 = (cmd_cancel id s t).2.1 ∧
      (cmd_cancel id (cmd_cancel id s t).1 t).2.2 = (cmd_cancel id s t).2.2) := by
  constructor
  · intro hnp
    refine ⟨rfl, ?_, rfl, rfl⟩
    simp [cmd_cancel, hnp]
  · refine ⟨?_, rfl, rfl⟩
    simp [cmd_cancel, Finset.insert_idem]

/-- Witness for the amended C6 at a concrete input. -/
theorem cancel_idempotent_witness :
    (cmd_cancel (.numJ 1) ⟨∅, ∅⟩ 5).1.procs = (⟨∅, ∅⟩ : AgentState).procs ∧
      (cmd_cancel (.numJ 1) ⟨∅, ∅⟩ 5).2.1 = none :=
  ⟨((cancel_idempotent (.numJ 1) ⟨∅, ∅⟩ 5).1 (by simp)).1,
   ((cancel_idempotent (.numJ 1) ⟨∅, ∅⟩ 5).1 (by simp)).2.1⟩

/-! ## Claim C7 — stat's symlink flag -/

/-- C7 (counterexample): `stat` on the symlink `ln` reports `link = false`
for *both* values of `followLinks`, although the supplied path names a
symlink: with `follow=False` the code hardwires `False` (agent.py line
150), and with `follow=True` the `lstat` runs on the canonicalized path
`tgt`, which is not a symlink. -/
theorem stat_link_flag_counterexample :
    isLinkNode (fsEx.lookup "ln") = true ∧
      (cmd_stat_fs fsEx "ln" false).map StatResult.link = .ok false ∧
      (cmd_stat_fs fsEx "ln" true).map StatResult.link = .ok false := by
  refine ⟨rfl, rfl, rfl⟩

/-- C7 (amended): whenever `stat` succeeds, the reported link flag is
`follow && S_ISLNK(lstat(resolved path))` — unconditionally `false` when
`followLinks` is false, and otherwise the lstat test of the *already
canonicalized* path (so any symlink whose chain resolves reports `false`
too). -/
theorem stat_link_flag (fs : FSMap) (raw : String) (follow : Bool) (r : StatResult)
    (h : cmd_stat_fs fs raw follow = .ok r) :
    r.link = (follow && isLinkNode (fs.lookup (realpathFS fs raw))) := by
  unfold cmd_stat_fs at h
  by_cases hr : raw = ""
  · rw [if_pos hr] at h
    cases h
  · rw [if_neg hr] at h
    dsimp only at h
    rcases hl : fs.lookup (if follow then realpathFS fs (realpathFS fs raw) else realpathFS fs raw)
      with _ | st
    · rw [hl] at h
      cases h
    · rw [hl] at h
      injection h with h2
      subst h2
      cases follow <;> simp

/-- Witness for the amended C7 at a concrete input. -/
theorem stat_link_flag_witness :
    StatResult.link ⟨3, false, true, false⟩ =
      (true && isLinkNode (fsEx.lookup (realpathFS fsEx "ln"))) :=
  stat_link_flag fsEx "ln" true ⟨3, false, true, false⟩ rfl

/-! ## Claim C10 — sudo_write's ownership guard -/

/-- C10: when exactly one of `uid`/`gid` is supplied, `cmd_sudo_write`
invokes no `chown` helper at all (the file's owner and group can only
change through one), while the `tee` write still runs and the `chmod`
helper still runs exactly when `mode` was supplied. -/
theorem sudo_write_chown_guard (path : String) (data : Bytes) (mode : Option Nat)
    (uid gid : Option Int) (o : SudoOracle) (hone : uid.isSome ≠ gid.isSome) :
    (∀ u g q, HelperCall.chownH u g q ∉ (cmd_sudo_write path data mode uid gid o).1) ∧
      (path ≠ "" → HelperCall.tee path data ∈ (cmd_sudo_write path data mode uid gid o).1) ∧
      (path ≠ "" → o.teeExit = 0 → ∀ m, mode = some m →
        HelperCall.chmodH m path ∈ (cmd_sudo_write path data mode uid gid o).1) := by
  rcases uid with _ | u <;> rcases gid with _ | g
  · exact absurd rfl hone
  · refine ⟨?_, ?_, ?_⟩
    · intro u2 g2 q2
      unfold cmd_sudo_write
      by_cases hp : path = ""
      · simp [hp]
      · by_cases hte : o.teeExit = 0
        · cases mode with
          | none => simp [hp, hte]
          | some m =>
            by_cases hcm : o.chmodOk = false
            · simp [hp, hte, hcm]
            · simp [hp, hte, hcm]
        · simp [hp, hte]
    · intro hp
      unfold cmd_sudo_write
      by_cases hte : o.teeExit = 0
      · cases mode with
        | none => simp [hp, hte]
        | some m =>
          by_cases hcm : o.chmodOk = false
          · simp [hp, hte, hcm]
          · simp [hp, hte, hcm]
      · simp [hp, hte]
    · intro hp hte m hm
      subst hm
      unfold cmd_sudo_write
      by_cases hcm : o.chmodOk = false
      · simp [hp, hte, hcm]
      · simp [hp, hte, hcm]
  · refine ⟨?_, ?_, ?_⟩
    · intro u2 g2 q2
      unfold cmd_sudo_write
      by_cases hp : path = ""
      · simp [hp]
      · by_cases hte : o.teeExit = 0
        · cases mode with
          | none => simp [hp, hte]
          | some m =>
            by_cases hcm : o.chmodOk = false
            · simp [hp, hte, hcm]
            · simp [hp, hte, hcm]
        · simp [hp, hte]
    · intro hp
      unfold cmd_sudo_write
      by_cases hte : o.teeExit = 0
      · cases mode with
        | none => simp [hp, hte]
        | some m =>
          by_cases hcm : o.chmodOk = false
          · simp [hp, hte, hcm]
          · simp [hp, hte, hcm]
      · simp [hp, hte]
    · intro hp hte m hm
      subst hm
      unfold cmd_sudo_write
      by_cases hcm : o.chmodOk = false
      · simp [hp, hte, hcm]
      · simp [hp, hte, hcm]
  · exact absurd rfl hone

/-- Witness for C10 at a concrete input (only `uid` supplied). -/
theorem sudo_write_chown_guard_witness :
    HelperCall.chownH 0 0 "f" ∉ (cmd_sudo_write "f" [1] none (some 0) none ⟨0, "", true, true⟩).1 ∧
      HelperCall.tee "f" [1] ∈ (cmd_sudo_write "f" [1] none (some 0) none ⟨0, "", true, true⟩).1 :=
  ⟨(sudo_write_chown_guard "f" [1] none (some 0) none ⟨0, "", true, true⟩ (by simp)).1 0 0 "f",
   (sudo_write_chown_guard "f" [1] none (some 0) none ⟨0, "", true, true⟩ (by simp)).2.1
     (by decide)⟩

/-! ## Claim C8 — path resolution

The proofs relate the absolute collapse `normpathComps true`, the relative
collapse `normpathComps false` and the normal form `relNF`: folding a
component list into an absolute base equals applying its relative normal
form, and the relative collapse *is* that normal form spelled out, so
collapsing first cannot change the final resolution. -/

theorem goodL_nil : goodL [] := fun c hc => absurd hc (List.not_mem_nil c)

theorem goodL_dropLast {l : List Seg} (h : goodL l) : goodL l.dropLast :=
  fun c hc => h c (List.mem_of_mem_dropLast hc)

theorem goodL_append_single {l : List Seg} {c : Seg} (h : goodL l) (hc : goodSeg c) :
    goodL (l ++ [c]) := by
  intro d hd
  rcases List.mem_append.mp hd with h1 | h1
  · exact h d h1
  · simp at h1
    subst h1
    exact hc

theorem goodL_take {l : List Seg} (h : goodL l) (n : Nat) : goodL (l.take n) :=
  fun c hc => h c (List.take_subset _ _ hc)

theorem goodL_append {l1 l2 : List Seg} (h1 : goodL l1) (h2 : goodL l2) :
    goodL (l1 ++ l2) := by
  intro c hc
  rcases List.mem_append.mp hc with h | h
  · exact h1 c h
  · exact h2 c h

theorem getLast?_ne_dotdot {l : List Seg} (h : goodL l) : l.getLast? ≠ some ".." := by
  intro hc
  exact (h _ (List.mem_of_getLast?_eq_some hc)).2.2 rfl

theorem goodSeg_of_cases {c : Seg} (hdot : ¬(c = "" ∨ c = ".")) (hdd : ¬c = "..") :
    goodSeg c :=
  ⟨fun hx => hdot (Or.inl hx), fun hx => hdot (Or.inr hx), hdd⟩

theorem npStep_dot (b : Bool) (s : List Seg) {c : Seg} (h : c = "" ∨ c = ".") :
    npStep b s c = s := by
  unfold npStep
  rw [if_pos h]

theorem npStep_norm (b : Bool) (s : List Seg) {c : Seg} (h : goodSeg c) :
    npStep b s c = s ++ [c] := by
  have h1 : ¬(c = "" ∨ c = ".") := by
    rintro (hx | hx)
    · exact h.1 hx
    · exact h.2.1 hx
  unfold npStep
  rw [if_neg h1, if_neg h.2.2]

theorem npStep_abs_dotdot (s : List Seg) (h : goodL s) :
    npStep true s ".." = s.dropLast := by
  have h1 : ¬((".." : Seg) = "" ∨ (".." : Seg) = ".") := by decide
  have h2 : ¬(((true : Bool) = false ∧ s = []) ∨ s.getLast? = some "..") := by
    rintro (⟨hx, -⟩ | hx)
    · cases hx
    · exact getLast?_ne_dotdot h hx
  unfold npStep
  rw [if_neg h1, if_pos rfl, if_neg h2]
  by_cases hs : s = []
  · rw [if_neg (not_not_intro hs)]
    subst hs
    rfl
  · rw [if_pos hs]

theorem relStep_dot (v : Nat) (acc : List Seg) {c : Seg} (h : c = "" ∨ c = ".") :
    relStep (v, acc) c = (v, acc) := by
  unfold relStep
  dsimp only
  rw [if_pos h]

theorem relStep_norm (v : Nat) (acc : List Seg) {c : Seg} (h : goodSeg c) :
    relStep (v, acc) c = (v, acc ++ [c]) := by
  have h1 : ¬(c = "" ∨ c = ".") := by
    rintro (hx | hx)
    · exact h.1 hx
    · exact h.2.1 hx
  unfold relStep
  dsimp only
  rw [if_neg h1, if_neg h.2.2]

theorem relStep_dotdot_nil (v : Nat) : relStep (v, []) ".." = (v + 1, []) := by
  have h1 : ¬((".." : Seg) = "" ∨ (".." : Seg) = ".") := by decide
  unfold relStep
  dsimp only
  rw [if_neg h1, if_pos rfl]

theorem relStep_dotdot_cons (v : Nat) (d : Seg) (ds : List Seg) :
    relStep (v, d :: ds) ".." = (v, (d :: ds).dropLast) := by
  have h1 : ¬((".." : Seg) = "" ∨ (".." : Seg) = ".") := by decide
  unfold relStep
  dsimp only
  rw [if_neg h1, if_pos rfl]

/-- Folding components into an absolute base from a relative normal form
tracks exactly the normal-form accumulator. -/
theorem abs_fold_relStep :
    ∀ (cs : List Seg) (s segs : List Seg) (u : Nat), goodL s → goodL segs →
      List.foldl (npStep true) (applyNF s (u, segs)) cs =
        applyNF s (List.foldl relStep (u, segs) cs) := by
  intro cs
  induction cs with
  | nil => intro s segs u _ _; rfl
  | cons c cs ih =>
    intro s segs u hs hsegs
    rw [List.foldl_cons, List.foldl_cons]
    by_cases hdot : c = "" ∨ c = "."
    · rw [npStep_dot _ _ hdot, relStep_dot _ _ hdot]
      exact ih s segs u hs hsegs
    · by_cases hdd : c = ".."
      · subst hdd
        cases segs with
        | nil =>
          have hgacc : goodL (applyNF s (u, [])) := by
            unfold applyNF
            exact goodL_append (goodL_take hs _) goodL_nil
          rw [npStep_abs_dotdot _ hgacc, relStep_dotdot_nil]
          have hstep : (applyNF s (u, [])).dropLast = applyNF s (u + 1, []) := by
            unfold applyNF
            rw [List.append_nil, List.append_nil, List.dropLast_eq_take,
              List.take_take, List.length_take]
            congr 1
            omega
          rw [hstep]
          exact ih s [] (u + 1) hs goodL_nil
        | cons d ds =>
          have hgacc : goodL (applyNF s (u, d :: ds)) := by
            unfold applyNF
            exact goodL_append (goodL_take hs _) hsegs
          rw [npStep_abs_dotdot _ hgacc, relStep_dotdot_cons]
          have hstep : (applyNF s (u, d :: ds)).dropLast = applyNF s (u, (d :: ds).dropLast) := by
            unfold applyNF
            rw [List.dropLast_append_of_ne_nil _ (by simp)]
          rw [hstep]
          exact ih s _ u hs (goodL_dropLast hsegs)
      · have hc : goodSeg c := goodSeg_of_cases hdot hdd
        rw [npStep_norm _ _ hc, relStep_norm _ _ hc]
        have hstep : applyNF s (u, segs) ++ [c] = applyNF s (u, segs ++ [c]) := by
          unfold applyNF
          rw [List.append_assoc]
        rw [hstep]
        exact ih s _ u hs (goodL_append_single hsegs hc)

/-- The relative collapse is the relative normal form spelled out as a
component list. -/
theorem rel_fold_relStep :
    ∀ (cs segs : List Seg) (u : Nat), goodL segs →
      List.foldl (npStep false) (List.replicate u ".." ++ segs) cs =
        List.replicate (List.foldl relStep (u, segs) cs).1 ".." ++
          (List.foldl relStep (u, segs) cs).2 := by
  intro cs
  induction cs with
  | nil => intro segs u _; rfl
  | cons c cs ih =>
    intro segs u hsegs
    rw [List.foldl_cons, List.foldl_cons]
    by_cases hdot : c = "" ∨ c = "."
    · rw [npStep_dot _ _ hdot, relStep_dot _ _ hdot]
      exact ih segs u hsegs
    · by_cases hdd : c = ".."
      · subst hdd
        have h1 : ¬((".." : Seg) = "" ∨ (".." : Seg) = ".") := by decide
        cases segs with
        | nil =>
          rw [relStep_dotdot_nil]
          cases u with
          | zero =>
            have hstep : npStep false (List.replicate 0 ".." ++ []) ".." =
                List.replicate 1 ".." ++ [] := by
              unfold npStep
              rw [if_neg h1, if_pos rfl, if_pos (Or.inl ⟨rfl, rfl⟩)]
              rfl
            rw [hstep]
            exact ih [] 1 goodL_nil
          | succ v =>
            have hlast : (List.replicate (v + 1) ".." ++ ([] : List Seg)).getLast? =
                some ".." := by
              rw [List.append_nil, List.replicate_succ']
              rw [List.getLast?_append_of_ne_nil _ (by simp)]
              rfl
            have hstep : npStep false (List.replicate (v + 1) ".." ++ []) ".." =
                List.replicate (v + 2) ".." ++ [] := by
              unfold npStep
              rw [if_neg h1, if_pos rfl, if_pos (Or.inr hlast)]
              rw [List.append_nil, List.append_nil, ← List.replicate_succ']
            rw [hstep]
            exact ih [] (v + 2) goodL_nil
        | cons d ds =>
          rw [relStep_dotdot_cons]
          have hcond : ¬(((false : Bool) = false ∧
              List.replicate u ".." ++ (d :: ds) = []) ∨
              (List.replicate u ".." ++ (d :: ds)).getLast? = some "..") := by
            rintro (⟨-, hx⟩ | hx)
            · exact absurd hx (by simp)
            · rw [List.getLast?_append_of_ne_nil _ (by simp)] at hx
              exact getLast?_ne_dotdot hsegs hx
          have hstep : npStep false (List.replicate u ".." ++ (d :: ds)) ".." =
              List.replicate u ".." ++ (d :: ds).dropLast := by
            unfold npStep
            rw [if_neg h1, if_pos rfl, if_neg hcond, if_pos (by simp)]
            rw [List.dropLast_append_of_ne_nil _ (by simp)]
          rw [hstep]
          exact ih _ u (goodL_dropLast hsegs)
      · have hc : goodSeg c := goodSeg_of_cases hdot hdd
        rw [npStep_norm _ _ hc, relStep_norm _ _ hc, List.append_assoc]
        exact ih _ u (goodL_append_single hsegs hc)

/-- Processing a block of `..` components only bumps the up-counter. -/
theorem relStep_replicate (u : Nat) : ∀ (v : Nat),
    List.foldl relStep (v, []) (List.replicate u "..") = (v + u, []) := by
  induction u with
  | zero => intro v; rfl
  | succ w ih =>
    intro v
    rw [List.replicate_succ, List.foldl_cons, relStep_dotdot_nil, ih (v + 1)]
    congr 1
    omega

/-- Processing plain components only appends them. -/
theorem relStep_good_append :
    ∀ (segs : List Seg), goodL segs →
      ∀ (v : Nat) (acc : List Seg), List.foldl relStep (v, acc) segs = (v, acc ++ segs) := by
  intro segs
  induction segs with
  | nil => intro _ v acc; simp
  | cons c cs ih =>
    intro hgood v acc
    have hc := hgood c (by simp)
    have hcs : goodL cs := fun d hd => hgood d (by simp [hd])
    rw [List.foldl_cons, relStep_norm _ _ hc, ih hcs v (acc ++ [c]), List.append_assoc]
    rfl

/-- The normal form's component part stays free of special components. -/
theorem relStep_fold_good :
    ∀ (cs : List Seg) (u : Nat) (segs : List Seg), goodL segs →
      goodL (List.foldl relStep (u, segs) cs).2 := by
  intro cs
  induction cs with
  | nil => intro u segs h; exact h
  | cons c cs ih =>
    intro u segs h
    rw [List.foldl_cons]
    by_cases hdot : c = "" ∨ c = "."
    · rw [relStep_dot _ _ hdot]
      exact ih u segs h
    · by_cases hdd : c = ".."
      · subst hdd
        cases segs with
        | nil =>
          rw [relStep_dotdot_nil]
          exact ih _ _ goodL_nil
        | cons d ds =>
          rw [relStep_dotdot_cons]
          exact ih _ _ (goodL_dropLast h)
      · have hc : goodSeg c := goodSeg_of_cases hdot hdd
        rw [relStep_norm _ _ hc]
        exact ih _ _ (goodL_append_single h hc)

/-- Every component of the normal form comes from the accumulator or the
input (used to rule out a smuggled-in `~`). -/
theorem relStep_fold_mem :
    ∀ (cs : List Seg) (u : Nat) (segs : List Seg) (c : Seg),
      c ∈ (List.foldl relStep (u, segs) cs).2 → c ∈ segs ∨ c ∈ cs := by
  intro cs
  induction cs with
  | nil => intro u segs c h; exact Or.inl h
  | cons d ds ih =>
    intro u segs c h
    rw [List.foldl_cons] at h
    by_cases hdot : d = "" ∨ d = "."
    · rw [relStep_dot _ _ hdot] at h
      rcases ih _ _ _ h with h1 | h1
      · exact Or.inl h1
      · exact Or.inr (by simp [h1])
    · by_cases hdd : d = ".."
      · subst hdd
        cases segs with
        | nil =>
          rw [relStep_dotdot_nil] at h
          rcases ih _ _ _ h with h1 | h1
          · exact absurd h1 (List.not_mem_nil c)
          · exact Or.inr (by simp [h1])
        | cons e es =>
          rw [relStep_dotdot_cons] at h
          rcases ih _ _ _ h with h1 | h1
          · exact Or.inl (List.mem_of_mem_dropLast h1)
          · exact Or.inr (by simp [h1])
      · have hd : goodSeg d := goodSeg_of_cases hdot hdd
        rw [relStep_norm _ _ hd] at h
        rcases ih _ _ _ h with h1 | h1
        · rcases List.mem_append.mp h1 with h2 | h2
          · exact Or.inl h2
          · simp at h2
            subst h2
            exact Or.inr (by simp)
        · exact Or.inr (by simp [h1])

/-- The absolute collapse of a good component list onto a good base just
appends. -/
theorem np_fold_good_list (b : Bool) :
    ∀ (cs : List Seg), goodL cs → ∀ s, List.foldl (npStep b) s cs = s ++ cs := by
  intro cs
  induction cs with
  | nil => intro _ s; simp
  | cons c cs ih =>
    intro h s
    have hc := h c (by simp)
    have hcs : goodL cs := fun d hd => h d (by simp [hd])
    rw [List.foldl_cons, npStep_norm _ _ hc, ih hcs (s ++ [c]), List.append_assoc]
    rfl

/-- The absolute collapse never produces a special component. -/
theorem npAbs_fold_good :
    ∀ (cs s : List Seg), goodL s → goodL (List.foldl (npStep true) s cs) := by
  intro cs
  induction cs with
  | nil => intro s h; exact h
  | cons c cs ih =>
    intro s h
    rw [List.foldl_cons]
    by_cases hdot : c = "" ∨ c = "."
    · rw [npStep_dot _ _ hdot]
      exact ih s h
    · by_cases hdd : c = ".."
      · subst hdd
        rw [npStep_abs_dotdot s h]
        exact ih _ (goodL_dropLast h)
      · have hc : goodSeg c := goodSeg_of_cases hdot hdd
        rw [npStep_norm _ _ hc]
        exact ih _ (goodL_append_single h hc)

/-- The `os.path.realpath` collapse is idempotent (as `normpath∘abspath`
already normalized). -/
theorem normpathComps_true_idem (cs : List Seg) :
    normpathComps true (normpathComps true cs) = normpathComps true cs := by
  have hg : goodL (normpathComps true cs) := npAbs_fold_good cs [] goodL_nil
  show List.foldl (npStep true) [] (normpathComps true cs) = _
  rw [np_fold_good_list true _ hg []]
  rfl

/-- The relative collapse spelled out from the normal form. -/
theorem npRel_eq_relNF (cs : List Seg) :
    normpathComps false cs =
      List.replicate (relNF cs).1 ".." ++ (relNF cs).2 := by
  have h := rel_fold_relStep cs [] 0 goodL_nil
  simpa [normpathComps, relNF] using h

/-- The normal form of a spelled-out normal form is itself. -/
theorem relNF_of_normal_form (u : Nat) (segs : List Seg) (h : goodL segs) :
    relNF (List.replicate u ".." ++ segs) = (u, segs) := by
  unfold relNF
  rw [List.foldl_append, relStep_replicate u 0, relStep_good_append segs h (0 + u) []]
  simp

/-- C8 (counterexample): `~` is a relative input path (it does not start
with `/`), yet it does not resolve against the agent's working directory:
`validate_path` expands it to the home directory first (agent.py line 45),
so with cwd `/w` and home `/h/u` the result is `/h/u` — neither the
cwd-joined resolution `/w/~` nor any path under `/w`. -/
theorem path_resolution_counterexample :
    (PyPath.mk false ["~"]).absolute = false ∧
      validate_path ["w"] ["h", "u"] noUsers ⟨false, ["~"]⟩ = .ok ["h", "u"] ∧
      ["h", "u"] ≠ normpathComps true (["w"] ++ ["~"]) ∧
      (["h", "u"] : List Seg).take 1 ≠ ["w"] := by
  refine ⟨rfl, rfl, by decide, by decide⟩

/-- C8 (amended): the empty path is rejected; every *relative* input whose
first component does not begin with `~` (neither the home shorthand nor a
`~user` form) resolves to the canonicalization of the cwd-joined path (an
absolute path; when the input has no `.`/`..`/empty components the result
is literally cwd followed by the input); and every relative input none of
whose components begins with `~` resolves to exactly the same canonical
path as its textually simplified (normpath) equivalent — interior
components must be restricted too, because normpath can surface an interior
`~...` component to the front, where resolution would then expand it. -/
theorem path_resolution (cwd home : List Seg) (users : Seg → Option (List Seg))
    (p : PyPath) (hcwd : goodL cwd) (hrel : p.absolute = false) (hne : p.comps ≠ []) :
    validate_path cwd home users ⟨false, []⟩ = .error "empty path" ∧
      (headTilde p.comps = false →
        validate_path cwd home users p = .ok (normpathComps true (cwd ++ p.comps)) ∧
          (goodL p.comps → normpathComps true (cwd ++ p.comps) = cwd ++ p.comps)) ∧
      ((∀ c ∈ p.comps, tildeHead c = false) →
        validate_path cwd home users p =
          validate_path cwd home users ⟨false, simplifyRel p.comps⟩) := by
  have key : ∀ (q : PyPath), q.absolute = false → q.comps ≠ [] →
      headTilde q.comps = false →
      validate_path cwd home users q = .ok (normpathComps true (cwd ++ q.comps)) := by
    intro q hq1 hq2 hq3
    have hexp : expanduser home users q = q := by
      unfold expanduser
      rw [if_pos hq1]
      cases hqc : q.comps with
      | nil => rfl
      | cons c r =>
        rw [hqc] at hq3
        dsimp only [headTilde, List.head?] at hq3 ⊢
        have hne2 : c ≠ "~" := by
          intro h
          rw [h] at hq3
          exact absurd hq3 (by decide)
        rw [if_neg hne2, if_neg (by simp [hq3])]
    unfold validate_path
    rw [if_neg (by rintro ⟨-, h2⟩; exact hq2 h2), hexp, hq1]
    simp only [Bool.false_eq_true, if_false]
    rw [normpathComps_true_idem]
  have happ : applyNF cwd (0, []) = cwd := by
    simp [applyNF]
  have habs : ∀ (cs : List Seg), normpathComps true (cwd ++ cs) =
      applyNF cwd (relNF cs) := by
    intro cs
    show List.foldl (npStep true) [] (cwd ++ cs) = _
    rw [List.foldl_append, np_fold_good_list true cwd hcwd [], List.nil_append]
    have h := abs_fold_relStep cs cwd [] 0 hcwd goodL_nil
    rw [happ] at h
    exact h
  refine ⟨rfl, ?_, ?_⟩
  · intro hh
    refine ⟨key p hrel hne hh, ?_⟩
    intro hgood
    show List.foldl (npStep true) [] (cwd ++ p.comps) = cwd ++ p.comps
    rw [np_fold_good_list true _ (goodL_append hcwd hgood) [], List.nil_append]
  · intro htilde
    have hh : headTilde p.comps = false := by
      cases hcq : p.comps with
      | nil => rfl
      | cons c r =>
        dsimp only [headTilde, List.head?]
        exact htilde c (by rw [hcq]; simp)
    have hsimp_ne : simplifyRel p.comps ≠ [] := by
      unfold simplifyRel
      split
      · simp
      · assumption
    have hsimp_tilde : ∀ c ∈ simplifyRel p.comps, tildeHead c = false := by
      intro c hc
      unfold simplifyRel at hc
      split at hc
      · simp at hc
        subst hc
        decide
      · rw [npRel_eq_relNF] at hc
        rcases List.mem_append.mp hc with h1 | h1
        · rw [List.eq_of_mem_replicate h1]
          decide
        · rcases relStep_fold_mem p.comps 0 [] c h1 with h2 | h2
          · exact absurd h2 (List.not_mem_nil _)
          · exact htilde c h2
    have hsimp_head : headTilde (simplifyRel p.comps) = false := by
      cases hsq : simplifyRel p.comps with
      | nil => rfl
      | cons c r =>
        dsimp only [headTilde, List.head?]
        exact hsimp_tilde c (by rw [hsq]; simp)
    rw [key p hrel hne hh, key ⟨false, simplifyRel p.comps⟩ rfl hsimp_ne hsimp_head]
    congr 1
    rw [habs p.comps, habs (simplifyRel p.comps)]
    congr 1
    unfold simplifyRel
    by_cases hz : normpathComps false p.comps = []
    · rw [if_pos hz]
      have h0 := npRel_eq_relNF p.comps
      rw [hz] at h0
      rcases List.append_eq_nil.mp h0.symm with ⟨hrep, hsegs⟩
      have hu : (relNF p.comps).1 = 0 := by
        simpa using congrArg List.length hrep
      have hnf : relNF p.comps = (0, []) := by
        rcases hp : relNF p.comps with ⟨u1, s1⟩
        rw [hp] at hu hsegs
        simp at hu hsegs
        rw [hu, hsegs]
      rw [hnf]
      show (0, ([] : List Seg)) = relNF ["."]
      rfl
    · have hg : goodL (relNF p.comps).2 := relStep_fold_good p.comps 0 [] goodL_nil
      rw [if_neg hz, npRel_eq_relNF, relNF_of_normal_form _ _ hg]

/-- Witness for the amended C8 at a concrete input. -/
theorem path_resolution_witness :
    validate_path ["w"] ["h"] noUsers ⟨false, ["a", "..", "b"]⟩ =
        .ok (normpathComps true (["w"] ++ ["a", "..", "b"])) ∧
      validate_path ["w"] ["h"] noUsers ⟨false, ["a", "..", "b"]⟩ =
        validate_path ["w"] ["h"] noUsers ⟨false, simplifyRel ["a", "..", "b"]⟩ :=
  ⟨((path_resolution ["w"] ["h"] noUsers ⟨false, ["a", "..", "b"]⟩ (by decide) rfl
      (by decide)).2.1 (by decide)).1,
   (path_resolution ["w"] ["h"] noUsers ⟨false, ["a", "..", "b"]⟩ (by decide) rfl
      (by decide)).2.2 (by decide)⟩

end FreshAgent
